import Mathlib

/-!
Shallow embedding of the vx_bevy chunk-meshing pipeline
(`src/voxel/world/meshing.rs`) and of the terrain-uniform pipeline
(`src/voxel/render/terrain_uniforms.rs`), together with proofs about them.

ECS conventions embedded here (Bevy 0.8 semantics, which the sources build on):
* a component storage maps each entity to at most one component of a given
  type; we embed storages as association lists with no duplicate keys, where
  `insert` replaces an existing binding;
* `Commands` issued by a system are buffered and applied at the end of the
  stage, in the order the systems were added to the stage;
* the render sub-app runs its stages in the fixed order
  `Extract`, `Prepare`, `Queue`, ... every frame.
-/

namespace VxBevy

/-! ## Association-list maps (embedding of ECS component storages) -/

abbrev Entity := Nat

/-- Look up the binding of key `k` in an association list. -/
def alookup {κ : Type} {α : Type} [DecidableEq κ] : List (κ × α) → κ → Option α
  | [], _ => none
  | (k, v) :: rest, e => if k = e then some v else alookup rest e

/-- Insert, replacing any existing binding of `k` (map semantics of an ECS
component storage: inserting a component overwrites the previous one). -/
def ainsert {κ : Type} {α : Type} [DecidableEq κ] : List (κ × α) → κ → α → List (κ × α)
  | [], k, v => [(k, v)]
  | (k', v') :: rest, k, v =>
    if k' = k then (k, v) :: rest else (k', v') :: ainsert rest k v

/-- Remove the binding of key `k`. -/
def aerase {κ : Type} {α : Type} [DecidableEq κ] : List (κ × α) → κ → List (κ × α)
  | [], _ => []
  | (k', v') :: rest, k => if k' = k then rest else (k', v') :: aerase rest k

/-- The keys of an association list. -/
def akeys {κ : Type} {α : Type} (l : List (κ × α)) : List κ := l.map (·.1)

/-! ## Voxels, chunk buffers and meshes -/

/-- A voxel is its material id; id 0 is the empty ("air") voxel. -/
abbrev Voxel := Nat

/-- Whether a voxel is solid (any non-air material). -/
def Voxel.isSolid (v : Voxel) : Bool := v != 0

/-- Integer 3-vector (chunk keys are `IVec3` positions on the chunk grid). -/
structure IVec3 where
  x : Int
  y : Int
  z : Int
deriving DecidableEq, Repr

/-- Shape descriptor of a chunk buffer: the interior extents of the voxel
grid. The stored grid additionally has a one-cell halo/padding border, so
valid interior cells are at coordinates `1 ..= extent` on each axis. -/
structure ChunkShape where
  sx : Nat
  sy : Nat
  sz : Nat
deriving DecidableEq, Repr

/-- A chunk's voxel buffer: a padded voxel grid plus its shape metadata.
Cloning the handle in the scheduler shares the (immutable) contents, which
we embed by the structure being a pure value. -/
structure ChunkBuffer where
  shape : ChunkShape
  voxels : Int → Int → Int → Voxel

/-- Mesh primitive topologies (the meshing pipeline only builds
triangle-list meshes). -/
inductive PrimitiveTopology where
  | TriangleList
  | LineList
  | PointList
deriving DecidableEq, Repr

/-- One extracted surface quad: the cell it sits on, the face direction
(index into `faceDirections`) and the material, with positions scaled by the
per-voxel size factor. -/
structure SurfaceQuad where
  px : Int
  py : Int
  pz : Int
  dir : Nat
  material : Voxel
deriving DecidableEq, Repr

/-- A renderable mesh: topology plus the produced surface quads. -/
structure Mesh where
  topology : PrimitiveTopology
  quads : List SurfaceQuad
deriving DecidableEq, Repr

/-- `Mesh::new(topology)`: an empty mesh of the given topology. -/
def Mesh.new (t : PrimitiveTopology) : Mesh := ⟨t, []⟩

/-- The six axis face directions as integer offsets. -/
def faceDirections : List (Int × Int × Int) :=
  [(1, 0, 0), (-1, 0, 0), (0, 1, 0), (0, -1, 0), (0, 0, 1), (0, 0, -1)]

/-- Whether the face of the cell at `(x, y, z)` towards offset `(dx, dy, dz)`
is visible: the cell is solid and its neighbour is non-solid or of a
different voxel type. -/
def faceVisible (b : ChunkBuffer) (x y z dx dy dz : Int) : Bool :=
  let v := b.voxels x y z
  let n := b.voxels (x + dx) (y + dy) (z + dz)
  v.isSolid && (!n.isSolid || n != v)

/-- The surface quads of one interior cell, scaled by `scale`. -/
def cellQuads (b : ChunkBuffer) (scale : Nat) (x y z : Int) : List SurfaceQuad :=
  (List.range faceDirections.length).filterMap fun d =>
    match faceDirections[d]? with
    | none => none
    | some (dx, dy, dz) =>
      if faceVisible b x y z dx dy dz then
        some ⟨x * scale, y * scale, z * scale, d, b.voxels x y z⟩
      else none

/-- Surface extraction over all interior cells of the padded grid, in the
fixed x-major, y-middle, z-minor enumeration order. -/
def chunkQuads (b : ChunkBuffer) (scale : Nat) : List SurfaceQuad :=
  (List.range b.shape.sx).flatMap fun i =>
    (List.range b.shape.sy).flatMap fun j =>
      (List.range b.shape.sz).flatMap fun k =>
        cellQuads b scale (i + 1) (j + 1) (k + 1)

/-- The reusable per-worker scratch workspace of the meshing algorithm
(`MeshBuffers<Voxel, ChunkShape>`): shape metadata plus scratch quad storage
left over from the previous task run on the same worker. -/
structure MeshBuffers where
  shape : ChunkShape
  scratch : List SurfaceQuad

/-- `MeshBuffers::new(shape)`. -/
def MeshBuffers.new (s : ChunkShape) : MeshBuffers := ⟨s, []⟩

/-- Modelled from the spec: `mesh_buffer` (from `crate::voxel::render`) is
not under `src/`; only its caller is. The spec describes it as a surface
extraction over visible voxel faces — "faces where a solid voxel borders a
non-solid or differently-typed neighbor" — producing a triangle-list
geometry buffer, a pure function of (voxel grid contents, shape) with
output positions scaled by the fixed per-voxel size factor, that fully
consumes/resets its scratch state before returning. The greedy quad-merging
step is left as per-face quads; every claim settled against this model
depends only on the output being a function of the buffer, shape and scale. -/
def mesh_buffer (buffer : ChunkBuffer) (buffers : MeshBuffers) (mesh : Mesh)
    (scale : Nat) : Mesh × MeshBuffers :=
  let extracted := chunkQuads buffer scale
  ({ mesh with quads := extracted }, { buffers with scratch := [] })

/-- The body of one spawned meshing task (`queue_mesh_tasks`, the closure
passed to `task_pool.spawn`): acquire the calling worker's scratch buffers,
create a fresh empty triangle-list mesh, run `mesh_buffer` on the cloned
chunk buffer with scale factor 1, and return the mesh. Returns the produced
mesh together with the worker's scratch state after the run. -/
def taskBody (scratchState : MeshBuffers) (buffer : ChunkBuffer) : Mesh × MeshBuffers :=
  let mesh := Mesh.new PrimitiveTopology.TriangleList
  mesh_buffer buffer scratchState mesh 1

/-- The mesh a meshing task produces for a given chunk buffer. -/
def meshOf (buffer : ChunkBuffer) : Mesh :=
  (taskBody (MeshBuffers.new buffer.shape) buffer).1

/-- One worker of the pool running a sequence of meshing tasks back to back,
threading its reused scratch workspace through the runs. -/
def runWorker (scratchState : MeshBuffers) : List ChunkBuffer → List Mesh × MeshBuffers
  | [] => ([], scratchState)
  | b :: rest =>
    let step := taskBody scratchState b
    let tail := runWorker step.2 rest
    (step.1 :: tail.1, tail.2)

/-! ## The meshing world: entities, components, resources -/

/-- `ChunkMeshingTask`: the component wrapping an in-flight meshing task
handle. Distinct spawned tasks carry distinct ids (the embedding of distinct
`Task<Mesh>` handles); `result` is the mesh the task body will produce. -/
structure ChunkMeshingTask where
  id : Nat
  result : Mesh
deriving DecidableEq, Repr

/-- Axis-aligned bounding box, as built by `Aabb::from_min_max`. -/
structure Aabb where
  min : IVec3
  max : IVec3
deriving DecidableEq, Repr

/-- Modelled from the spec: `CHUNK_LENGTH` is declared in
`super` (the voxel world module), which is not under `src/`; the spec only
says chunks are fixed-size blocks. The claims proved here depend on the
constant only symbolically, never on its value. -/
def CHUNK_LENGTH : Nat := 32

/-- The state visible to the meshing systems at a frame boundary: the live
entities, the per-entity component storages, the `Assets<Mesh>` store, the
external resources (`DirtyChunks`, `ChunkEntities`, `ChunkMap`), and two
allocation counters embedding the freshness of spawned task handles and of
added mesh asset handles. `installed` is a ghost log recording, per
integration, which entity had which task's result installed into the scene
by `process_mesh_tasks`. -/
structure World where
  entities : List Entity
  chunkC : List (Entity × IVec3)
  handleC : List (Entity × Nat)
  taskC : List (Entity × ChunkMeshingTask)
  visibleC : List (Entity × Bool)
  transformC : List (Entity × IVec3)
  aabbC : List (Entity × Aabb)
  meshes : List (Nat × Mesh)
  dirty : List IVec3
  chunkEntities : List (IVec3 × Entity)
  chunkMap : List (IVec3 × ChunkBuffer)
  nextTaskId : Nat
  nextHandle : Nat
  installed : List (Entity × Nat)

/-- A buffered ECS command, applied at the end of the stage that issued it. -/
inductive Command where
  | insertTask (e : Entity) (t : ChunkMeshingTask)
  | removeTask (e : Entity)

/-- Apply one buffered command to the world. -/
def applyCommand (w : World) : Command → World
  | .insertTask e t => { w with taskC := ainsert w.taskC e t }
  | .removeTask e => { w with taskC := aerase w.taskC e }

/-- Apply a command buffer front to back. -/
def applyCommands (w : World) (cmds : List Command) : World :=
  cmds.foldl applyCommand w

/-- The effect of a command buffer on the task component storage alone
(the only storage the buffered commands touch). -/
def applyTaskCmds (l : List (Entity × ChunkMeshingTask)) :
    List Command → List (Entity × ChunkMeshingTask)
  | [] => l
  | Command.insertTask e t :: rest => applyTaskCmds (ainsert l e t) rest
  | Command.removeTask e :: rest => applyTaskCmds (aerase l e) rest

/-- The task ids currently attached to some entity. -/
def attachedIds (w : World) : List Nat := w.taskC.map (fun p => p.2.id)

/-- A task id is retired when it is attached to no entity and every task id
the scheduler will ever mint from here on is strictly larger. A retired
task's result can never be installed again. -/
def Retired (w : World) (tid : Nat) : Prop :=
  tid ∉ attachedIds w ∧ tid < w.nextTaskId

/-! ## prepare_chunks -/

/-- One row of the `Added<Chunk>` query of `prepare_chunks`: a newly added
entity qualifies when it is live and carries a `Chunk` key component. -/
def prepareQueryEntry (w : World) (e : Entity) : Option (Entity × IVec3) :=
  if e ∈ w.entities then (alookup w.chunkC e).map (fun key => (e, key)) else none

/-- The `Added<Chunk>` query of `prepare_chunks`: the newly inserted chunk
entities (supplied by the external chunk-loading collaborator as `added`)
paired with their `Chunk` key component. -/
def prepareQuery (w : World) (added : List Entity) : List (Entity × IVec3) :=
  added.filterMap (prepareQueryEntry w)

/-- The loop body of `prepare_chunks`: for each newly added chunk entity,
add a fresh empty triangle-list mesh to `Assets<Mesh>` and insert the render
bundle — the mesh handle, a transform translated to the chunk key's
coordinates, visibility off, and the chunk-local bounding box. -/
def prepareLoop : List (Entity × IVec3) → World → World
  | [], w => w
  | (e, key) :: rest, w =>
    let h := w.nextHandle
    prepareLoop rest
      { w with
        meshes := ainsert w.meshes h (Mesh.new PrimitiveTopology.TriangleList),
        nextHandle := h + 1,
        handleC := ainsert w.handleC e h,
        transformC := ainsert w.transformC e key,
        visibleC := ainsert w.visibleC e false,
        aabbC := ainsert w.aabbC e
          ⟨⟨0, 0, 0⟩,
           ⟨(CHUNK_LENGTH : Int), (CHUNK_LENGTH : Int), (CHUNK_LENGTH : Int)⟩⟩ }

/-- `prepare_chunks`: attaches to the newly inserted chunk entities the
components required for rendering. Runs in its own stage, so its effects are
modelled as applied atomically. -/
def prepare_chunks (w : World) (added : List Entity) : World :=
  prepareLoop (prepareQuery w added) w

/-! ## queue_mesh_tasks -/

/-- The iterator chain of `queue_mesh_tasks` up to task spawning: take the
dirty-chunk snapshot, keep the keys with a live chunk entity, then keep
those with a resident voxel buffer (cloning the buffer handle). -/
def queueSpawnList (w : World) : List (ChunkBuffer × Entity) :=
  ((w.dirty.filterMap fun key =>
      (alookup w.chunkEntities key).bind fun entity => some (key, entity))
    |>.filterMap fun ke =>
      (alookup w.chunkMap ke.1).bind fun buffer => some (buffer, ke.2))

/-- Spawn one asynchronous meshing task per resolved (buffer, entity) pair,
consuming fresh task ids from `n` upward; each task will produce the mesh of
its cloned buffer. -/
def assignTasks : Nat → List (ChunkBuffer × Entity) → List (Entity × ChunkMeshingTask)
  | _, [] => []
  | n, (b, e) :: rest => (e, ⟨n, meshOf b⟩) :: assignTasks (n + 1) rest

/-- `queue_mesh_tasks`: spawns meshing tasks for the dirty chunks and
buffers one `insert(ChunkMeshingTask)` command per spawned task. The direct
world state only advances the task-handle allocation counter; the component
insertions are deferred command effects. -/
def queue_mesh_tasks (w : World) : World × List Command :=
  let spawns := assignTasks w.nextTaskId (queueSpawnList w)
  ({ w with nextTaskId := w.nextTaskId + (queueSpawnList w).length },
   spawns.map fun p => Command.insertTask p.1 p.2)

/-! ## process_mesh_tasks -/

/-- One row of the query of `process_mesh_tasks`: the entity qualifies when
it carries all four queried components
(`&Handle<Mesh>`, `&mut ChunkMeshingTask`, `&mut Visibility`, `With<Chunk>`). -/
def processQueryEntry (w : World) (e : Entity) :
    Option (Entity × Nat × ChunkMeshingTask) :=
  match alookup w.handleC e, alookup w.taskC e, alookup w.visibleC e,
      alookup w.chunkC e with
  | some h, some t, some _, some _ => some (e, h, t)
  | _, _, _, _ => none

/-- The query of `process_mesh_tasks`:
`(Entity, &Handle<Mesh>, &mut ChunkMeshingTask, &mut Visibility)` filtered
by `With<Chunk>` — the live entities carrying all four components, snapshot
as (entity, mesh handle, task). -/
def processQuery (w : World) : List (Entity × Nat × ChunkMeshingTask) :=
  w.entities.filterMap (processQueryEntry w)

/-- The loop body of `process_mesh_tasks` over the query snapshot. `poll`
says, per task id, whether the single non-blocking poll of this pass
observes the task complete. On completion the mesh asset behind the handle
is overwritten (`meshes.get_mut(handle).unwrap()` — `none` embeds the panic
when the handle resolves to no asset), visibility is set, the marker removal
is buffered, and the installation is recorded in the ghost log. An
incomplete task leaves everything untouched. -/
def processLoop (poll : Nat → Bool) :
    List (Entity × Nat × ChunkMeshingTask) → World → List Command →
      Option (World × List Command)
  | [], w, cmds => some (w, cmds)
  | (e, h, t) :: rest, w, cmds =>
    if poll t.id then
      match alookup w.meshes h with
      | none => none
      | some _ =>
        processLoop poll rest
          { w with
            meshes := ainsert w.meshes h t.result,
            visibleC := ainsert w.visibleC e true,
            installed := w.installed ++ [(e, t.id)] }
          (cmds ++ [Command.removeTask e])
    else processLoop poll rest w cmds

/-- The world fields `process_mesh_tasks` never writes directly: everything
except the mesh assets, the visibility components and the ghost install
log. -/
def ProcessFrame (w w' : World) : Prop :=
  w'.entities = w.entities ∧ w'.chunkC = w.chunkC ∧ w'.handleC = w.handleC ∧
  w'.taskC = w.taskC ∧ w'.transformC = w.transformC ∧ w'.aabbC = w.aabbC ∧
  w'.dirty = w.dirty ∧ w'.chunkEntities = w.chunkEntities ∧
  w'.chunkMap = w.chunkMap ∧ w'.nextTaskId = w.nextTaskId ∧
  w'.nextHandle = w.nextHandle

/-- `process_mesh_tasks`: polls the in-flight tasks without blocking and
integrates the completed meshes. Returns the directly mutated world plus
the buffered marker removals; `none` embeds the panic of the `unwrap` on a
missing mesh asset. -/
def process_mesh_tasks (poll : Nat → Bool) (w : World) :
    Option (World × List Command) :=
  processLoop poll (processQuery w) w []

/-- One run of `process_mesh_tasks` together with the flush of its own
command buffer (the effect of a single invocation of the system once its
commands are applied). -/
def process_and_flush (poll : Nat → Bool) (w : World) : Option World :=
  (process_mesh_tasks poll w).map fun p => applyCommands p.1 p.2

/-- One pass of the `ChunkMeshingStage`: `queue_mesh_tasks` runs first, then
`process_mesh_tasks` (ordered `after` it), both seeing the direct state;
at the end of the stage the buffered commands are applied, queue's buffer
before process's (the order the systems were added to the stage). -/
def chunkMeshingStage (poll : Nat → Bool) (w : World) : Option World :=
  let queued := queue_mesh_tasks w
  match process_mesh_tasks poll queued.1 with
  | none => none
  | some (w2, pCmds) => some (applyCommands (applyCommands w2 queued.2) pCmds)

/-- Despawning an entity removes it from the live set and drops all its
components. -/
def despawnEntity (w : World) (e : Entity) : World :=
  { w with
    entities := w.entities.filter (· ≠ e),
    chunkC := aerase w.chunkC e,
    handleC := aerase w.handleC e,
    taskC := aerase w.taskC e,
    visibleC := aerase w.visibleC e,
    transformC := aerase w.transformC e,
    aabbC := aerase w.aabbC e,
    installed := w.installed }

/-! ## Frame steps and reachability -/

/-- One step of the per-frame pipeline or of its external collaborators:
a `ChunkMeshingStage` pass, a `prepare_chunks` pass, an update of the
externally owned resources (dirty set, chunk-entity lookup, chunk storage),
the spawn of a fresh chunk entity, or the destruction of an entity. -/
inductive WStep : World → World → Prop where
  | mesh (poll : Nat → Bool) (w w' : World) :
      chunkMeshingStage poll w = some w' → WStep w w'
  | prepare (added : List Entity) (w : World) : WStep w (prepare_chunks w added)
  | resources (d : List IVec3) (ce : List (IVec3 × Entity))
      (cm : List (IVec3 × ChunkBuffer)) (w : World) :
      WStep w { w with dirty := d, chunkEntities := ce, chunkMap := cm }
  | spawnChunk (e : Entity) (key : IVec3) (w : World) :
      e ∉ w.entities →
      WStep w { w with entities := e :: w.entities, chunkC := ainsert w.chunkC e key }
  | despawn (e : Entity) (w : World) : WStep w (despawnEntity w e)

/-- Reachability along frame steps. -/
def Reach : World → World → Prop := Relation.ReflTransGen WStep

/-! ## Terrain uniforms: materials, render distance, bind group

Embedding of `src/voxel/render/terrain_uniforms.rs`. Colors and the float
material parameters are carried as rationals: the pipeline only copies and
compares them, never computes with them. -/

/-- RGBA color. In Bevy 0.8 `Color::default()` is `Color::WHITE`. -/
structure Color where
  r : Rat
  g : Rat
  b : Rat
  a : Rat
deriving DecidableEq, Repr

/-- `Color::WHITE`: opaque white. -/
def Color.WHITE : Color := ⟨1, 1, 1, 1⟩

/-- `GpuVoxelMaterial`: one 256-table slot. -/
structure GpuVoxelMaterial where
  base_color : Color
  flags : Nat
  emissive : Color
  perceptual_roughness : Rat
  metallic : Rat
  reflectance : Rat
deriving DecidableEq, Repr

/-- The derived `Default` record of `GpuVoxelMaterial`: each field takes its
own default — `Color::default()` is white in Bevy 0.8, numeric fields are
zero. -/
def GpuVoxelMaterial.derivedDefault : GpuVoxelMaterial :=
  { base_color := Color.WHITE, flags := 0, emissive := Color.WHITE,
    perceptual_roughness := 0, metallic := 0, reflectance := 0 }

/-- The slot initializer written in `extract_voxel_materials`:
`GpuVoxelMaterial { base_color: Color::WHITE, flags: 0, ..Default::default() }`. -/
def extractInitMaterial : GpuVoxelMaterial :=
  { GpuVoxelMaterial.derivedDefault with base_color := Color.WHITE, flags := 0 }

/-- `GpuTerrainMaterials`: the fixed-capacity 256-slot material table. -/
structure GpuTerrainMaterials where
  materials : Fin 256 → GpuVoxelMaterial

/-- `GpuTerrainMaterials::default()`: 256 copies of the derived default. -/
def GpuTerrainMaterials.default : GpuTerrainMaterials :=
  ⟨fun _ => GpuVoxelMaterial.derivedDefault⟩

/-- One registered material of the (externally owned) registry. Modelled
from the spec: `VoxelMaterialRegistry` lives in `crate::voxel::material`,
which is not under `src/`; the spec describes the registry as an ordered
sequence of up to 256 materials with exactly these fields, exposing a
"changed since last observation" signal. -/
structure VoxelMaterial where
  base_color : Color
  flags : Nat
  emissive : Color
  perceptual_roughness : Rat
  metallic : Rat
  reflectance : Rat
deriving DecidableEq, Repr

/-- Modelled from the spec: the material registry — its ordered material
sequence (`iter_mats`) and its change-detection signal (`is_changed`). -/
structure VoxelMaterialRegistry where
  mats : List VoxelMaterial
  changed : Bool

/-- The per-slot effect of the copy loop of `extract_voxel_materials`: the
six field assignments overwrite every field of the slot, i.e. replace the
slot with the registered material's record. -/
def materialToGpu (m : VoxelMaterial) : GpuVoxelMaterial :=
  { base_color := m.base_color, flags := m.flags, emissive := m.emissive,
    perceptual_roughness := m.perceptual_roughness, metallic := m.metallic,
    reflectance := m.reflectance }

/-- Write one slot of the table. An index at or beyond the capacity is out
of range; the source would panic there, and it is unreachable for
registries within the 256-material capacity. -/
def setSlot (tbl : Fin 256 → GpuVoxelMaterial) (i : Nat) (m : GpuVoxelMaterial) :
    Fin 256 → GpuVoxelMaterial :=
  if h : i < 256 then Function.update tbl ⟨i, h⟩ m else tbl

/-- The enumerated copy loop of `extract_voxel_materials`: materials are
copied into consecutive slots starting at index `i`. -/
def writeMaterials (tbl : Fin 256 → GpuVoxelMaterial) (i : Nat) :
    List VoxelMaterial → (Fin 256 → GpuVoxelMaterial)
  | [] => tbl
  | m :: rest => writeMaterials (setSlot tbl i (materialToGpu m)) (i + 1) rest

/-- `extract_voxel_materials`: when the registry's change signal is set,
build the table — every slot starts as the opaque-white initializer, then
each registered material is copied field-for-field into its slot — and
insert it as the extracted resource (`some`); otherwise do nothing (`none`). -/
def extract_voxel_materials (materials : VoxelMaterialRegistry) :
    Option GpuTerrainMaterials :=
  if materials.changed then
    some ⟨writeMaterials (fun _ => extractInitMaterial) 0 materials.mats⟩
  else none

/-- `GpuTerrainRenderSettings`: the render-distance scalar mirrored to the
GPU. -/
structure GpuTerrainRenderSettings where
  render_distance : Nat
deriving DecidableEq, Repr

/-- `ChunkLoadRadius` (external resource): the horizontal chunk radius
(an `i32`) with its change-detection signal. Modelled from the spec for the
fields the pipeline reads. -/
structure ChunkLoadRadius where
  horizontal : Int
  changed : Bool

/-- The `as u32` cast applied to the horizontal radius. -/
def i32_as_u32 (i : Int) : Nat := (i % (2 : Int) ^ 32).toNat

/-- `extract_terrain_render_settings_uniform`: when the setting's change
signal is set, insert the extracted render-distance uniform. -/
def extract_terrain_render_settings_uniform (render_distance : ChunkLoadRadius) :
    Option GpuTerrainRenderSettings :=
  if render_distance.changed then
    some ⟨i32_as_u32 render_distance.horizontal⟩
  else none

/-- A GPU storage buffer: the staged CPU-side value, a fixed identity tag,
and whether a GPU-side buffer has been allocated yet (`buffer()` returns
`none` before the first `write_buffer`). Both buffers here have fixed byte
sizes, so a `write_buffer` never reallocates an already allocated buffer. -/
structure StorageBuffer (α : Type) where
  value : α
  idTag : Nat
  allocated : Bool

/-- `StorageBuffer::buffer()` / `binding()`: the GPU buffer, once allocated. -/
def StorageBuffer.buffer {α : Type} (b : StorageBuffer α) : Option Nat :=
  if b.allocated then some b.idTag else none

/-- The bind group built by `prepare_terrain_uniforms`: entry 0 is the
materials buffer, entry 1 the render-distance buffer. -/
structure BindGroup where
  materialsBuffer : Nat
  renderDistanceBuffer : Nat
deriving DecidableEq, Repr

/-- `TerrainUniforms`: the buffers and the bind group for terrain
rendering. The bind group starts out absent (`FromWorld` sets `None`). -/
structure TerrainUniforms where
  bind_group_layout : Nat
  materials_buffer : StorageBuffer GpuTerrainMaterials
  render_distance_params : StorageBuffer GpuTerrainRenderSettings
  bind_group : Option BindGroup

/-- `TerrainUniforms::from_world`: empty buffers, no bind group yet. -/
def TerrainUniforms.fromWorld : TerrainUniforms :=
  { bind_group_layout := 0,
    materials_buffer := ⟨GpuTerrainMaterials.default, 0, false⟩,
    render_distance_params := ⟨⟨0⟩, 1, false⟩,
    bind_group := none }

/-- `prepare_terrain_uniforms`: unconditionally rebuild the bind group from
the two buffers. The `unwrap` on `buffer()`/`binding()` panics (`none`) when
a buffer has not been allocated by a preceding upload. -/
def prepare_terrain_uniforms (terrain_uniforms : TerrainUniforms) :
    Option TerrainUniforms :=
  match terrain_uniforms.materials_buffer.buffer,
      terrain_uniforms.render_distance_params.buffer with
  | some mb, some rb =>
      some { terrain_uniforms with bind_group := some ⟨mb, rb⟩ }
  | _, _ => none

/-- Observable per-frame actions of the uniform pipeline, in execution
order. -/
inductive RenderEvent where
  | extractedMaterials
  | extractedRenderDistance
  | wroteMaterialsBuffer
  | wroteRenderDistanceBuffer
  | rebuiltBindGroup
deriving DecidableEq, Repr

/-- `upload_voxel_materials`: when the extracted material table changed,
stage it into the materials buffer and write the buffer (allocating the GPU
buffer on first use); otherwise touch nothing. -/
def upload_voxel_materials (materials : GpuTerrainMaterials)
    (materialsChanged : Bool) (material_meta : TerrainUniforms) :
    TerrainUniforms × List RenderEvent :=
  if materialsChanged then
    ({ material_meta with
        materials_buffer :=
          { material_meta.materials_buffer with value := materials, allocated := true } },
     [RenderEvent.wroteMaterialsBuffer])
  else (material_meta, [])

/-- `upload_render_distance_uniform`: the same change-gated staging and
write for the render-distance buffer. -/
def upload_render_distance_uniform (uniform : GpuTerrainRenderSettings)
    (uniformChanged : Bool) (material_meta : TerrainUniforms) :
    TerrainUniforms × List RenderEvent :=
  if uniformChanged then
    ({ material_meta with
        render_distance_params :=
          { material_meta.render_distance_params with value := uniform, allocated := true } },
     [RenderEvent.wroteRenderDistanceBuffer])
  else (material_meta, [])

/-- The persistent state of the render sub-app across frames: the
`TerrainUniforms` resource and the two extracted resources, absent until
their first extraction. The Booleans of the pairs embed Bevy's change
detection: a resource reads as changed exactly in the frame the extract
phase (re)inserted it. -/
structure RenderWorldState where
  uniforms : TerrainUniforms
  gpuMats : Option (GpuTerrainMaterials × Bool)
  gpuSettings : Option (GpuTerrainRenderSettings × Bool)

/-- The effect of the `Extract` stage on the extracted material-table
resource: a fired extract (re)inserts it, reading as changed for the rest of
the frame; otherwise the previous extraction, if any, stays with its change
flag cleared. -/
def extractPhaseMats (reg : VoxelMaterialRegistry)
    (old : Option (GpuTerrainMaterials × Bool)) :
    Option (GpuTerrainMaterials × Bool) :=
  match extract_voxel_materials reg with
  | some table => some (table, true)
  | none => old.map (fun p => (p.1, false))

/-- The same for the extracted render-distance resource. -/
def extractPhaseSettings (radius : ChunkLoadRadius)
    (old : Option (GpuTerrainRenderSettings × Bool)) :
    Option (GpuTerrainRenderSettings × Bool) :=
  match extract_terrain_render_settings_uniform radius with
  | some u => some (u, true)
  | none => old.map (fun p => (p.1, false))

/-- One frame of the render sub-app as assembled by
`VoxelTerrainUniformsPlugin::build`, in Bevy 0.8's fixed stage order:
`Extract` (both extract systems), then `Prepare` (both upload systems), then
`Queue` (`prepare_terrain_uniforms`). Returns the next state and the event
log; `none` embeds a panic (a missing extracted resource for an upload
system, or the bind-group build unwrapping an unallocated buffer). -/
def renderAppFrame (reg : VoxelMaterialRegistry) (radius : ChunkLoadRadius)
    (s : RenderWorldState) : Option (RenderWorldState × List RenderEvent) :=
  match extractPhaseMats reg s.gpuMats, extractPhaseSettings radius s.gpuSettings with
  | some m, some d =>
    let uploadM := upload_voxel_materials m.1 m.2 s.uniforms
    let uploadD := upload_render_distance_uniform d.1 d.2 uploadM.1
    match prepare_terrain_uniforms uploadD.1 with
    | none => none
    | some u3 =>
      some ({ uniforms := u3, gpuMats := some m, gpuSettings := some d },
        ((if reg.changed then [RenderEvent.extractedMaterials] else []) ++
          (if radius.changed then [RenderEvent.extractedRenderDistance] else [])) ++
          uploadM.2 ++ uploadD.2 ++ [RenderEvent.rebuiltBindGroup])
  | _, _ => none

/-- Tracked state of a render pass: which bind group is bound at which
slot. -/
structure TrackedRenderPass where
  boundGroups : List (Nat × BindGroup)

/-- Render command results. -/
inductive RenderCommandResult where
  | Success
  | Failure
deriving DecidableEq, Repr

/-- `SetTerrainUniformsBindGroup::<I>::render`: bind the built bind group at
slot `I` and return `Success`. The `unwrap` on the bind group panics
(`none`) when no prepare pass has built it yet. -/
def SetTerrainUniformsBindGroup.render (I : Nat) (param : TerrainUniforms)
    (pass : TrackedRenderPass) : Option (TrackedRenderPass × RenderCommandResult) :=
  match param.bind_group with
  | none => none
  | some bg =>
      some ({ pass with boundGroups := ainsert pass.boundGroups I bg },
        RenderCommandResult.Success)

/-! ## Concrete test fixtures

Small concrete worlds and registries the theorems are exercised on. -/

/-- A trivially empty chunk buffer (zero interior extents, all air). -/
def emptyChunkBuffer : ChunkBuffer := ⟨⟨0, 0, 0⟩, fun _ _ _ => 0⟩

/-- A one-entity test world: entity 0 is a chunk at the origin carrying mesh
handle 0, an in-flight task with id 5, and its chunk is dirty again with a
live entity mapping and a resident buffer. -/
def sampleWorld : World :=
  { entities := [0],
    chunkC := [(0, ⟨0, 0, 0⟩)],
    handleC := [(0, 0)],
    taskC := [(0, ⟨5, Mesh.new PrimitiveTopology.TriangleList⟩)],
    visibleC := [(0, false)],
    transformC := [],
    aabbC := [],
    meshes := [(0, Mesh.new PrimitiveTopology.TriangleList)],
    dirty := [⟨0, 0, 0⟩],
    chunkEntities := [(⟨0, 0, 0⟩, 0)],
    chunkMap := [(⟨0, 0, 0⟩, emptyChunkBuffer)],
    nextTaskId := 6,
    nextHandle := 1,
    installed := [] }

/-- `sampleWorld` after a `ChunkMeshingStage` pass whose poll observes
nothing complete: the dirty chunk got a fresh replacement task (id 6), and
the task counter advanced. -/
def sampleWorldReplaced : World :=
  { sampleWorld with
    taskC := [(0, ⟨6, meshOf emptyChunkBuffer⟩)],
    nextTaskId := 7 }

/-- A world exercising the scheduling races: three dirty keys — one with a
live entity and a resident buffer, one with neither, one with no entity. -/
def raceWorld : World :=
  { entities := [1, 2],
    chunkC := [],
    handleC := [],
    taskC := [],
    visibleC := [],
    transformC := [],
    aabbC := [],
    meshes := [],
    dirty := [⟨0, 0, 0⟩, ⟨1, 0, 0⟩, ⟨2, 0, 0⟩],
    chunkEntities := [(⟨1, 0, 0⟩, 2)],
    chunkMap := [(⟨1, 0, 0⟩, emptyChunkBuffer)],
    nextTaskId := 0,
    nextHandle := 0,
    installed := [] }

/-- A red, flagged test material (differs from the opaque-white default in
both base color and flags). -/
def redMaterial : VoxelMaterial :=
  { base_color := ⟨1, 0, 0, 1⟩, flags := 1, emissive := ⟨0, 0, 0, 1⟩,
    perceptual_roughness := 0, metallic := 0, reflectance := 0 }

/-- The opaque-white default as a registry entry. -/
def whiteMaterial : VoxelMaterial :=
  { base_color := Color.WHITE, flags := 0, emissive := Color.WHITE,
    perceptual_roughness := 0, metallic := 0, reflectance := 0 }

/-- A registry whose first registered material is the red test material. -/
def redFirstRegistry : VoxelMaterialRegistry := ⟨[redMaterial], true⟩

/-- The spec's two-material scenario: slot 0 the white default, slot 1 red. -/
def twoSlotRegistry : VoxelMaterialRegistry := ⟨[whiteMaterial, redMaterial], true⟩

/-- Terrain uniforms whose two storage buffers are already GPU-allocated by
a previous upload (the state after the first successful frame). -/
def allocatedUniforms : TerrainUniforms :=
  { bind_group_layout := 0,
    materials_buffer := ⟨GpuTerrainMaterials.default, 0, true⟩,
    render_distance_params := ⟨⟨2⟩, 1, true⟩,
    bind_group := none }

/-- A render-world state after at least one extraction and upload of both
resources, with nothing changed since. -/
def steadyRenderState : RenderWorldState :=
  { uniforms := allocatedUniforms,
    gpuMats := some (GpuTerrainMaterials.default, false),
    gpuSettings := some (⟨2⟩, false) }

/-- The render-world state at startup: nothing extracted, empty buffers. -/
def initialRenderState : RenderWorldState :=
  { uniforms := TerrainUniforms.fromWorld, gpuMats := none, gpuSettings := none }

/-- `allocatedUniforms` after one more prepare pass rebuilt the bind
group. -/
def allocatedUniformsBound : TerrainUniforms :=
  { allocatedUniforms with bind_group := some ⟨0, 1⟩ }

/-- `steadyRenderState` after a frame in which nothing changed. -/
def steadyRenderStateAfter : RenderWorldState :=
  { uniforms := allocatedUniformsBound,
    gpuMats := some (GpuTerrainMaterials.default, false),
    gpuSettings := some (⟨2⟩, false) }

/-- The render-world state after a first full frame over an empty registry
and a radius of 2. -/
def firstFrameRenderState : RenderWorldState :=
  { uniforms :=
      { bind_group_layout := 0,
        materials_buffer :=
          ⟨⟨writeMaterials (fun _ => extractInitMaterial) 0 []⟩, 0, true⟩,
        render_distance_params := ⟨⟨2⟩, 1, true⟩,
        bind_group := some ⟨0, 1⟩ },
    gpuMats := some (⟨writeMaterials (fun _ => extractInitMaterial) 0 []⟩, true),
    gpuSettings := some (⟨2⟩, true) }

/-! ## Association-list lemmas -/

section AListLemmas

variable {κ α : Type} [DecidableEq κ]

theorem alookup_ainsert_self (l : List (κ × α)) (k : κ) (v : α) :
    alookup (ainsert l k v) k = some v := by
  induction l with
  | nil => simp [ainsert, alookup]
  | cons hd tl ih =>
    obtain ⟨k', v'⟩ := hd
    by_cases h : k' = k
    · simp [ainsert, h, alookup]
    · simp [ainsert, h, alookup, ih]

omit [DecidableEq κ] in
theorem akeys_cons (k : κ) (v : α) (l : List (κ × α)) :
    akeys ((k, v) :: l) = k :: akeys l := rfl

theorem alookup_ainsert_ne (l : List (κ × α)) (k k' : κ) (v : α) (h : k' ≠ k) :
    alookup (ainsert l k v) k' = alookup l k' := by
  induction l with
  | nil => simp [ainsert, alookup, Ne.symm h]
  | cons hd tl ih =>
    obtain ⟨a, b⟩ := hd
    by_cases ha : a = k
    · subst ha
      simp [ainsert, alookup, Ne.symm h]
    · simp only [ainsert, if_neg ha, alookup]
      by_cases hb : a = k'
      · simp [hb]
      · simp [hb, ih]

theorem alookup_aerase_ne (l : List (κ × α)) (k k' : κ) (h : k' ≠ k) :
    alookup (aerase l k) k' = alookup l k' := by
  induction l with
  | nil => simp [aerase]
  | cons hd tl ih =>
    obtain ⟨a, b⟩ := hd
    by_cases ha : a = k
    · subst ha
      simp [aerase, alookup, Ne.symm h]
    · simp only [aerase, if_neg ha, alookup]
      by_cases hb : a = k'
      · simp [hb]
      · simp [hb, ih]

theorem mem_of_alookup {l : List (κ × α)} {k : κ} {v : α}
    (h : alookup l k = some v) : (k, v) ∈ l := by
  induction l with
  | nil => simp [alookup] at h
  | cons hd tl ih =>
    obtain ⟨a, b⟩ := hd
    simp only [alookup] at h
    by_cases ha : a = k
    · rw [if_pos ha] at h
      injection h with hbv
      subst ha
      subst hbv
      exact List.mem_cons_self _ _
    · rw [if_neg ha] at h
      exact List.mem_cons_of_mem _ (ih h)

theorem mem_aerase {l : List (κ × α)} {k : κ} {p : κ × α}
    (h : p ∈ aerase l k) : p ∈ l := by
  induction l with
  | nil => simp [aerase] at h
  | cons hd tl ih =>
    obtain ⟨a, b⟩ := hd
    by_cases ha : a = k
    · simp only [aerase, if_pos ha] at h
      exact List.mem_cons_of_mem _ h
    · simp only [aerase, if_neg ha] at h
      rcases List.mem_cons.mp h with h | h
      · simp [h]
      · exact List.mem_cons_of_mem _ (ih h)

theorem mem_akeys_ainsert {l : List (κ × α)} {k a : κ} {v : α}
    (h : a ∈ akeys (ainsert l k v)) : a ∈ akeys l ∨ a = k := by
  induction l with
  | nil =>
    rw [show ainsert ([] : List (κ × α)) k v = [(k, v)] from rfl, akeys_cons] at h
    rcases List.mem_cons.mp h with h | h
    · exact Or.inr h
    · simp [akeys] at h
  | cons hd tl ih =>
    obtain ⟨k', v'⟩ := hd
    by_cases hk : k' = k
    · subst hk
      rw [show ainsert ((k', v') :: tl) k' v = (k', v) :: tl from by
        simp [ainsert], akeys_cons] at h
      rw [akeys_cons]
      rcases List.mem_cons.mp h with h | h
      · exact Or.inr h
      · exact Or.inl (List.mem_cons_of_mem _ h)
    · rw [show ainsert ((k', v') :: tl) k v = (k', v') :: ainsert tl k v from by
        simp [ainsert, hk], akeys_cons] at h
      rw [akeys_cons]
      rcases List.mem_cons.mp h with h | h
      · exact Or.inl (List.mem_cons.mpr (Or.inl h))
      · rcases ih h with h | h
        · exact Or.inl (List.mem_cons_of_mem _ h)
        · exact Or.inr h

theorem nodup_akeys_ainsert {l : List (κ × α)} {k : κ} {v : α}
    (h : (akeys l).Nodup) : (akeys (ainsert l k v)).Nodup := by
  induction l with
  | nil => simp [ainsert, akeys]
  | cons hd tl ih =>
    obtain ⟨k', v'⟩ := hd
    rw [akeys_cons, List.nodup_cons] at h
    by_cases hk : k' = k
    · subst hk
      rw [show ainsert ((k', v') :: tl) k' v = (k', v) :: tl from by simp [ainsert],
        akeys_cons, List.nodup_cons]
      exact h
    · rw [show ainsert ((k', v') :: tl) k v = (k', v') :: ainsert tl k v from by
        simp [ainsert, hk], akeys_cons, List.nodup_cons]
      refine ⟨fun hmem => ?_, ih h.2⟩
      rcases mem_akeys_ainsert hmem with hm | hm
      · exact h.1 hm
      · exact hk hm

theorem mem_akeys_aerase {l : List (κ × α)} {k a : κ}
    (h : a ∈ akeys (aerase l k)) : a ∈ akeys l := by
  induction l with
  | nil => simpa [aerase] using h
  | cons hd tl ih =>
    obtain ⟨k', v'⟩ := hd
    rw [akeys_cons]
    by_cases hk : k' = k
    · rw [show aerase ((k', v') :: tl) k = tl from by simp [aerase, hk]] at h
      exact List.mem_cons_of_mem _ h
    · rw [show aerase ((k', v') :: tl) k = (k', v') :: aerase tl k from by
        simp [aerase, hk], akeys_cons] at h
      rcases List.mem_cons.mp h with h | h
      · exact List.mem_cons.mpr (Or.inl h)
      · exact List.mem_cons_of_mem _ (ih h)

theorem nodup_akeys_aerase {l : List (κ × α)} {k : κ}
    (h : (akeys l).Nodup) : (akeys (aerase l k)).Nodup := by
  induction l with
  | nil => simp [aerase, akeys]
  | cons hd tl ih =>
    obtain ⟨k', v'⟩ := hd
    rw [akeys_cons, List.nodup_cons] at h
    by_cases hk : k' = k
    · rw [show aerase ((k', v') :: tl) k = tl from by simp [aerase, hk]]
      exact h.2
    · rw [show aerase ((k', v') :: tl) k = (k', v') :: aerase tl k from by
        simp [aerase, hk], akeys_cons, List.nodup_cons]
      exact ⟨fun hmem => h.1 (mem_akeys_aerase hmem), ih h.2⟩

theorem mem_ainsert {l : List (κ × α)} {k : κ} {v : α} {p : κ × α}
    (h : p ∈ ainsert l k v) : p = (k, v) ∨ p ∈ l := by
  induction l with
  | nil => simpa [ainsert] using h
  | cons hd tl ih =>
    obtain ⟨k', v'⟩ := hd
    by_cases hk : k' = k
    · rw [show ainsert ((k', v') :: tl) k v = (k, v) :: tl from by simp [ainsert, hk]] at h
      rcases List.mem_cons.mp h with h | h
      · exact Or.inl h
      · exact Or.inr (List.mem_cons_of_mem _ h)
    · rw [show ainsert ((k', v') :: tl) k v = (k', v') :: ainsert tl k v from by
        simp [ainsert, hk]] at h
      rcases List.mem_cons.mp h with h | h
      · exact Or.inr (List.mem_cons.mpr (Or.inl h))
      · rcases ih h with h | h
        · exact Or.inl h
        · exact Or.inr (List.mem_cons_of_mem _ h)

/-- After an insert into a storage with no duplicate keys, every binding of
the inserted key is the inserted value: the insert replaced the previous
binding. -/
theorem mem_ainsert_eq_of_nodup {l : List (κ × α)} {k : κ} {v : α} {p : κ × α}
    (hnd : (akeys l).Nodup) (h : p ∈ ainsert l k v) (hk : p.1 = k) : p = (k, v) := by
  induction l with
  | nil =>
    simpa [ainsert] using h
  | cons hd tl ih =>
    obtain ⟨k', v'⟩ := hd
    rw [akeys_cons, List.nodup_cons] at hnd
    by_cases hkk : k' = k
    · subst hkk
      rw [show ainsert ((k', v') :: tl) k' v = (k', v) :: tl from by simp [ainsert]] at h
      rcases List.mem_cons.mp h with h | h
      · exact h
      · exact absurd (hk ▸ List.mem_map_of_mem (·.1) h) hnd.1
    · rw [show ainsert ((k', v') :: tl) k v = (k', v') :: ainsert tl k v from by
        simp [ainsert, hkk]] at h
      rcases List.mem_cons.mp h with h | h
      · exact absurd (by rw [h] at hk; exact hk.symm) (Ne.symm hkk)
      · exact ih hnd.2 h

theorem alookup_eq_none_iff {l : List (κ × α)} {k : κ} :
    alookup l k = none ↔ k ∉ akeys l := by
  induction l with
  | nil => simp [alookup, akeys]
  | cons hd tl ih =>
    obtain ⟨a, b⟩ := hd
    rw [akeys_cons]
    by_cases ha : a = k
    · subst ha
      simp [alookup]
    · simp only [alookup, if_neg ha, List.mem_cons, ih]
      constructor
      · rintro h (h' | h')
        · exact ha h'.symm
        · exact h h'
      · intro h h'
        exact h (Or.inr h')

theorem alookup_aerase_self {l : List (κ × α)} {k : κ}
    (hnd : (akeys l).Nodup) : alookup (aerase l k) k = none := by
  induction l with
  | nil => simp [aerase, alookup]
  | cons hd tl ih =>
    obtain ⟨a, b⟩ := hd
    rw [akeys_cons, List.nodup_cons] at hnd
    by_cases ha : a = k
    · subst ha
      rw [show aerase ((a, b) :: tl) a = tl from by simp [aerase]]
      exact alookup_eq_none_iff.mpr hnd.1
    · rw [show aerase ((a, b) :: tl) k = (a, b) :: aerase tl k from by simp [aerase, ha]]
      simp only [alookup, if_neg ha]
      exact ih hnd.2

theorem alookup_isSome_ainsert {l : List (κ × α)} {k k' : κ} {v : α}
    (h : (alookup l k').isSome = true) :
    (alookup (ainsert l k v) k').isSome = true := by
  by_cases hk : k' = k
  · subst hk
    rw [alookup_ainsert_self]
    rfl
  · rw [alookup_ainsert_ne _ _ _ _ hk]
    exact h

end AListLemmas

/-! ## Command-buffer lemmas -/

theorem applyCommand_eq (w : World) (c : Command) :
    applyCommand w c = { w with taskC := applyTaskCmds w.taskC [c] } := by
  cases c <;> rfl

/-- A command buffer only rewrites the task component storage. -/
theorem applyCommands_eq (cmds : List Command) (w : World) :
    applyCommands w cmds = { w with taskC := applyTaskCmds w.taskC cmds } := by
  induction cmds generalizing w with
  | nil => rfl
  | cons c rest ih =>
    cases c with
    | insertTask e t =>
      show applyCommands (applyCommand w (Command.insertTask e t)) rest = _
      rw [applyCommand_eq, ih]
      rfl
    | removeTask e =>
      show applyCommands (applyCommand w (Command.removeTask e)) rest = _
      rw [applyCommand_eq, ih]
      rfl

theorem mem_applyTaskCmds {l : List (Entity × ChunkMeshingTask)} {cmds : List Command}
    {p : Entity × ChunkMeshingTask} (h : p ∈ applyTaskCmds l cmds) :
    (∃ e t, Command.insertTask e t ∈ cmds ∧ p = (e, t)) ∨ p ∈ l := by
  induction cmds generalizing l with
  | nil => exact Or.inr h
  | cons c rest ih =>
    cases c with
    | insertTask e t =>
      rcases ih (l := ainsert l e t) h with ⟨e', t', hc, hp⟩ | hmem
      · exact Or.inl ⟨e', t', List.mem_cons_of_mem _ hc, hp⟩
      · rcases mem_ainsert hmem with hp | hp
        · exact Or.inl ⟨e, t, List.mem_cons_self _ _, hp⟩
        · exact Or.inr hp
    | removeTask e =>
      rcases ih (l := aerase l e) h with ⟨e', t', hc, hp⟩ | hmem
      · exact Or.inl ⟨e', t', List.mem_cons_of_mem _ hc, hp⟩
      · exact Or.inr (mem_aerase hmem)

theorem nodup_applyTaskCmds {l : List (Entity × ChunkMeshingTask)} {cmds : List Command}
    (h : (akeys l).Nodup) : (akeys (applyTaskCmds l cmds)).Nodup := by
  induction cmds generalizing l with
  | nil => exact h
  | cons c rest ih =>
    cases c with
    | insertTask e t => exact ih (nodup_akeys_ainsert h)
    | removeTask e => exact ih (nodup_akeys_aerase h)

/-- In an insert-only command buffer that inserts a task on entity `e`,
every binding of `e` after the flush stems from one of the buffered
inserts: the buffered insert replaced whatever was attached before. -/
theorem applyTaskCmds_insert_binding {l : List (Entity × ChunkMeshingTask)}
    {cmds : List Command} {e : Entity}
    (hnd : (akeys l).Nodup)
    (hins : ∃ t0, Command.insertTask e t0 ∈ cmds) :
    ∀ p ∈ applyTaskCmds l cmds, p.1 = e →
      ∃ t0, Command.insertTask e t0 ∈ cmds ∧ p = (e, t0) := by
  induction cmds generalizing l with
  | nil => exact absurd hins (by simp)
  | cons c rest ih =>
    intro p hp hpe
    cases c with
    | insertTask e' t' =>
      have hp' : p ∈ applyTaskCmds (ainsert l e' t') rest := hp
      by_cases hrest : ∃ t0, Command.insertTask e t0 ∈ rest
      · rcases ih (nodup_akeys_ainsert hnd) hrest p hp' hpe with ⟨t0, ht0, hp0⟩
        exact ⟨t0, List.mem_cons_of_mem _ ht0, hp0⟩
      · have he' : e' = e := by
          rcases hins with ⟨t0, ht0⟩
          rcases List.mem_cons.mp ht0 with hc | hc
          · injection hc with h1 h2
            exact h1.symm
          · exact absurd ⟨t0, hc⟩ hrest
        rcases mem_applyTaskCmds hp' with ⟨e₂, t₂, hc₂, hp₂⟩ | hmem
        · exfalso
          apply hrest
          refine ⟨t₂, ?_⟩
          have he₂ : e₂ = e := by rw [hp₂] at hpe; exact hpe
          rwa [he₂] at hc₂
        · have hp'' : p = (e', t') :=
            mem_ainsert_eq_of_nodup hnd hmem (hpe.trans he'.symm)
          refine ⟨t', ?_, ?_⟩
          · rw [← he']
            exact List.mem_cons_self _ _
          · rw [← he']
            exact hp''
    | removeTask e' =>
      have hp' : p ∈ applyTaskCmds (aerase l e') rest := hp
      have hrest : ∃ t0, Command.insertTask e t0 ∈ rest := by
        rcases hins with ⟨t0, ht0⟩
        rcases List.mem_cons.mp ht0 with hc | hc
        · exact absurd hc (by simp)
        · exact ⟨t0, hc⟩
      rcases ih (nodup_akeys_aerase hnd) hrest p hp' hpe with ⟨t0, ht0, hp0⟩
      exact ⟨t0, List.mem_cons_of_mem _ ht0, hp0⟩

/-- A remove-only command buffer only drops bindings. -/
theorem applyTaskCmds_removes_subset {l : List (Entity × ChunkMeshingTask)}
    {cmds : List Command}
    (hrem : ∀ c ∈ cmds, ∃ e, c = Command.removeTask e) :
    ∀ p ∈ applyTaskCmds l cmds, p ∈ l := by
  induction cmds generalizing l with
  | nil => exact fun p hp => hp
  | cons c rest ih =>
    intro p hp
    rcases hrem c (List.mem_cons_self _ _) with ⟨e, rfl⟩
    exact mem_aerase (ih (fun c hc => hrem c (List.mem_cons_of_mem _ hc)) p hp)

/-- A remove-only command buffer that never removes from `e` leaves `e`'s
binding alone. -/
theorem applyTaskCmds_removes_lookup_frame {l : List (Entity × ChunkMeshingTask)}
    {cmds : List Command} {e : Entity}
    (hrem : ∀ c ∈ cmds, ∃ e', c = Command.removeTask e')
    (hne : Command.removeTask e ∉ cmds) :
    alookup (applyTaskCmds l cmds) e = alookup l e := by
  induction cmds generalizing l with
  | nil => rfl
  | cons c rest ih =>
    rcases hrem c (List.mem_cons_self _ _) with ⟨e', rfl⟩
    have he' : e ≠ e' := fun h => hne (by rw [h]; exact List.mem_cons_self _ _)
    rw [show applyTaskCmds l (Command.removeTask e' :: rest) =
      applyTaskCmds (aerase l e') rest from rfl]
    rw [ih (fun c hc => hrem c (List.mem_cons_of_mem _ hc))
      (fun h => hne (List.mem_cons_of_mem _ h))]
    exact alookup_aerase_ne l e' e he'

/-- An insert-only command buffer inserting on `e` leaves `e` with some
binding. -/
theorem applyTaskCmds_inserts_isSome {l : List (Entity × ChunkMeshingTask)}
    {cmds : List Command} {e : Entity}
    (hins : ∀ c ∈ cmds, ∃ e' t', c = Command.insertTask e' t')
    (he : ∃ t0, Command.insertTask e t0 ∈ cmds) :
    (alookup (applyTaskCmds l cmds) e).isSome = true := by
  induction cmds generalizing l with
  | nil => exact absurd he (by simp)
  | cons c rest ih =>
    rcases hins c (List.mem_cons_self _ _) with ⟨e', t', rfl⟩
    rw [show applyTaskCmds l (Command.insertTask e' t' :: rest) =
      applyTaskCmds (ainsert l e' t') rest from rfl]
    by_cases hrest : ∃ t0, Command.insertTask e t0 ∈ rest
    · exact ih (fun c hc => hins c (List.mem_cons_of_mem _ hc)) hrest
    · rcases he with ⟨t0, ht0⟩
      rcases List.mem_cons.mp ht0 with hc | hc
      · injection hc with he' ht'
        subst he'
        subst ht'
        have : ∀ cmds₂, (∀ c ∈ cmds₂, ∃ e₂ t₂, c = Command.insertTask e₂ t₂) →
            ∀ l₂ : List (Entity × ChunkMeshingTask), (alookup l₂ e).isSome = true →
            (alookup (applyTaskCmds l₂ cmds₂) e).isSome = true := by
          intro cmds₂ hc₂
          induction cmds₂ with
          | nil => exact fun l₂ h => h
          | cons c₂ r₂ ih₂ =>
            intro l₂ h₂
            rcases hc₂ c₂ (List.mem_cons_self _ _) with ⟨e₂, t₂, rfl⟩
            exact ih₂ (fun c hc => hc₂ c (List.mem_cons_of_mem _ hc)) _
              (alookup_isSome_ainsert h₂)
        refine this rest (fun c hc => hins c (List.mem_cons_of_mem _ hc)) _ ?_
        rw [alookup_ainsert_self]
        rfl
      · exact absurd ⟨t0, hc⟩ hrest

/-! ## Scheduler lemmas -/

theorem assignTasks_mem_id_ge {l : List (ChunkBuffer × Entity)} {n : Nat}
    {e : Entity} {t : ChunkMeshingTask} (h : (e, t) ∈ assignTasks n l) :
    n ≤ t.id := by
  induction l generalizing n with
  | nil => simp [assignTasks] at h
  | cons hd tl ih =>
    obtain ⟨b, e'⟩ := hd
    rcases List.mem_cons.mp h with h | h
    · injection h with h1 h2
      subst h2
      exact Nat.le_refl n
    · exact Nat.le_of_succ_le (ih h)

theorem assignTasks_mem_src {l : List (ChunkBuffer × Entity)} {n : Nat}
    {e : Entity} {t : ChunkMeshingTask} (h : (e, t) ∈ assignTasks n l) :
    ∃ b, (b, e) ∈ l := by
  induction l generalizing n with
  | nil => simp [assignTasks] at h
  | cons hd tl ih =>
    obtain ⟨b, e'⟩ := hd
    rcases List.mem_cons.mp h with h | h
    · injection h with h1 h2
      subst h1
      exact ⟨b, List.mem_cons_self _ _⟩
    · rcases ih h with ⟨b', hb'⟩
      exact ⟨b', List.mem_cons_of_mem _ hb'⟩

theorem assignTasks_exists {l : List (ChunkBuffer × Entity)} {b : ChunkBuffer}
    {e : Entity} (n : Nat) (h : (b, e) ∈ l) :
    ∃ t, (e, t) ∈ assignTasks n l := by
  induction l generalizing n with
  | nil => simp at h
  | cons hd tl ih =>
    obtain ⟨b', e'⟩ := hd
    rcases List.mem_cons.mp h with h | h
    · injection h with h1 h2
      subst h1
      subst h2
      exact ⟨⟨n, meshOf b⟩, List.mem_cons_self _ _⟩
    · rcases ih (n + 1) h with ⟨t, ht⟩
      exact ⟨t, List.mem_cons_of_mem _ ht⟩

theorem assignTasks_countP (e : Entity) :
    ∀ (n : Nat) (l : List (ChunkBuffer × Entity)),
      (assignTasks n l).countP (fun p => p.1 == e) =
        l.countP (fun q => q.2 == e) := by
  intro n l
  induction l generalizing n with
  | nil => rfl
  | cons hd tl ih =>
    obtain ⟨b, e'⟩ := hd
    rw [show assignTasks n ((b, e') :: tl) =
      (e', (⟨n, meshOf b⟩ : ChunkMeshingTask)) :: assignTasks (n + 1) tl from rfl]
    rw [List.countP_cons, List.countP_cons, ih (n + 1)]

/-- The direct state change of `queue_mesh_tasks` is only the task-handle
counter: it never errors and never touches components or resources. -/
theorem queue_mesh_tasks_fst (w : World) :
    (queue_mesh_tasks w).1 =
      { w with nextTaskId := w.nextTaskId + (queueSpawnList w).length } := rfl

/-- Every command buffered by `queue_mesh_tasks` is a marker insertion
whose task id is fresh (at least the scheduler's counter). -/
theorem queue_cmds_inserts (w : World) :
    ∀ c ∈ (queue_mesh_tasks w).2,
      ∃ e t, c = Command.insertTask e t ∧ w.nextTaskId ≤ t.id := by
  intro c hc
  rcases List.mem_map.mp hc with ⟨⟨e, t⟩, hmem, rfl⟩
  exact ⟨e, t, rfl, assignTasks_mem_id_ge hmem⟩

/-- The resolution chain of `queue_mesh_tasks` written as a single pass over
the dirty snapshot. -/
theorem queueSpawnList_eq (w : World) :
    queueSpawnList w = w.dirty.filterMap (fun key =>
      match alookup w.chunkEntities key, alookup w.chunkMap key with
      | some e, some b => some (b, e)
      | _, _ => none) := by
  unfold queueSpawnList
  rw [List.filterMap_filterMap]
  apply List.filterMap_congr
  intro key _
  cases hce : alookup w.chunkEntities key with
  | none => simp
  | some e =>
    cases hcm : alookup w.chunkMap key with
    | none => simp [hcm]
    | some b => simp [hcm]

/-- A fully resolvable dirty key gets a task spawned and its marker
insertion buffered. -/
theorem queue_schedules {w : World} {key : IVec3} {e : Entity} {b : ChunkBuffer}
    (hkey : key ∈ w.dirty) (hce : alookup w.chunkEntities key = some e)
    (hcm : alookup w.chunkMap key = some b) :
    ∃ t, Command.insertTask e t ∈ (queue_mesh_tasks w).2 := by
  have hsp : (b, e) ∈ queueSpawnList w := by
    rw [queueSpawnList_eq]
    refine List.mem_filterMap.mpr ⟨key, hkey, ?_⟩
    rw [hce, hcm]
  rcases assignTasks_exists w.nextTaskId hsp with ⟨t, ht⟩
  exact ⟨t, List.mem_map.mpr ⟨(e, t), ht, rfl⟩⟩

/-- Conversely, every buffered marker insertion stems from a dirty key that
resolved to both a live entity and a resident buffer. -/
theorem queue_cmds_src {w : World} {e : Entity} {t : ChunkMeshingTask}
    (hc : Command.insertTask e t ∈ (queue_mesh_tasks w).2) :
    ∃ key ∈ w.dirty, alookup w.chunkEntities key = some e ∧
      ∃ b, alookup w.chunkMap key = some b := by
  rcases List.mem_map.mp hc with ⟨p, hmem, heq⟩
  obtain ⟨e', t'⟩ := p
  injection heq with he ht
  rcases assignTasks_mem_src hmem with ⟨b, hb⟩
  rw [queueSpawnList_eq] at hb
  rcases List.mem_filterMap.mp hb with ⟨key, hkey, hres⟩
  refine ⟨key, hkey, ?_⟩
  cases hce : alookup w.chunkEntities key with
  | none => rw [hce] at hres; simp at hres
  | some e₂ =>
    cases hcm : alookup w.chunkMap key with
    | none => rw [hce, hcm] at hres; simp at hres
    | some b₂ =>
      rw [hce, hcm] at hres
      injection hres with hres
      injection hres with h1 h2
      exact ⟨congrArg some (h2.trans he), b₂, rfl⟩

/-! ## Integrator lemmas -/

theorem processQueryEntry_some {w : World} {e : Entity}
    {r : Entity × Nat × ChunkMeshingTask} (hr : processQueryEntry w e = some r) :
    r.1 = e ∧ alookup w.handleC e = some r.2.1 ∧ alookup w.taskC e = some r.2.2 ∧
      (alookup w.visibleC e).isSome = true ∧ (alookup w.chunkC e).isSome = true := by
  unfold processQueryEntry at hr
  cases h1 : alookup w.handleC e with
  | none => rw [h1] at hr; exact Option.noConfusion hr
  | some hh =>
    cases h2 : alookup w.taskC e with
    | none => rw [h1, h2] at hr; exact Option.noConfusion hr
    | some tt =>
      cases h3 : alookup w.visibleC e with
      | none => rw [h1, h2, h3] at hr; exact Option.noConfusion hr
      | some vv =>
        cases h4 : alookup w.chunkC e with
        | none => rw [h1, h2, h3, h4] at hr; exact Option.noConfusion hr
        | some cc =>
          rw [h1, h2, h3, h4] at hr
          injection hr with hr
          rw [← hr]
          exact ⟨rfl, rfl, rfl, rfl, rfl⟩

theorem processQueryEntry_eq {w : World} {e : Entity} {hh : Nat}
    {tt : ChunkMeshingTask} (h1 : alookup w.handleC e = some hh)
    (h2 : alookup w.taskC e = some tt)
    (h3 : (alookup w.visibleC e).isSome = true)
    (h4 : (alookup w.chunkC e).isSome = true) :
    processQueryEntry w e = some (e, hh, tt) := by
  unfold processQueryEntry
  rw [h1, h2]
  cases hv : alookup w.visibleC e with
  | none => rw [hv] at h3; exact absurd h3 (by simp)
  | some v =>
    cases hc : alookup w.chunkC e with
    | none => rw [hc] at h4; exact absurd h4 (by simp)
    | some c => rfl

theorem processQuery_mem {w : World} {e : Entity} {hh : Nat} {tt : ChunkMeshingTask}
    (hq : (e, hh, tt) ∈ processQuery w) :
    e ∈ w.entities ∧ alookup w.handleC e = some hh ∧ alookup w.taskC e = some tt := by
  rcases List.mem_filterMap.mp hq with ⟨e', he', hres⟩
  rcases processQueryEntry_some hres with ⟨h0, h1, h2, _, _⟩
  have : e' = e := by rw [← h0]
  subst this
  exact ⟨he', h1, h2⟩

theorem processQuery_mem_intro {w : World} {e : Entity} {hh : Nat}
    {tt : ChunkMeshingTask} (he : e ∈ w.entities)
    (h1 : alookup w.handleC e = some hh) (h2 : alookup w.taskC e = some tt)
    (h3 : (alookup w.visibleC e).isSome = true)
    (h4 : (alookup w.chunkC e).isSome = true) :
    (e, hh, tt) ∈ processQuery w :=
  List.mem_filterMap.mpr ⟨e, he, processQueryEntry_eq h1 h2 h3 h4⟩

theorem processQuery_fst_mem {w : World} {p : Entity × Nat × ChunkMeshingTask}
    (hp : p ∈ processQuery w) : p.1 ∈ w.entities := by
  rcases List.mem_filterMap.mp hp with ⟨e', he', hres⟩
  rcases processQueryEntry_some hres with ⟨h0, _, _, _, _⟩
  rw [h0]
  exact he'

theorem processQuery_fst_sublist (w : World) :
    List.Sublist ((processQuery w).map (fun p => p.1)) w.entities := by
  unfold processQuery
  generalize w.entities = l
  induction l with
  | nil => simp
  | cons a tl ih =>
    cases hfa : processQueryEntry w a with
    | none =>
      rw [show List.filterMap (processQueryEntry w) (a :: tl) =
        List.filterMap (processQueryEntry w) tl from by
        simp [List.filterMap_cons, hfa]]
      exact ih.cons a
    | some r =>
      rw [show List.filterMap (processQueryEntry w) (a :: tl) =
        r :: List.filterMap (processQueryEntry w) tl from by
        simp [List.filterMap_cons, hfa]]
      rw [List.map_cons, (processQueryEntry_some hfa).1]
      exact ih.cons₂ a

theorem processQuery_fst_nodup {w : World} (h : w.entities.Nodup) :
    ((processQuery w).map (fun p => p.1)).Nodup :=
  (processQuery_fst_sublist w).nodup h

theorem processLoop_frame (poll : Nat → Bool)
    (q : List (Entity × Nat × ChunkMeshingTask)) :
    ∀ (w : World) (acc : List Command) (w' : World) (cmds' : List Command),
      processLoop poll q w acc = some (w', cmds') → ProcessFrame w w' := by
  induction q with
  | nil =>
    intro w acc w' cmds' hrun
    simp only [processLoop, Option.some.injEq, Prod.mk.injEq] at hrun
    rw [← hrun.1]
    exact ⟨rfl, rfl, rfl, rfl, rfl, rfl, rfl, rfl, rfl, rfl, rfl⟩
  | cons entry rest ih =>
    intro w acc w' cmds' hrun
    obtain ⟨e, h, t⟩ := entry
    simp only [processLoop] at hrun
    by_cases hp : poll t.id = true
    · rw [if_pos hp] at hrun
      cases hm : alookup w.meshes h with
      | none => rw [hm] at hrun; exact Option.noConfusion hrun
      | some m =>
        rw [hm] at hrun
        have hrun' : processLoop poll rest
            { w with meshes := ainsert w.meshes h t.result,
                     visibleC := ainsert w.visibleC e true,
                     installed := w.installed ++ [(e, t.id)] }
            (acc ++ [Command.removeTask e]) = some (w', cmds') := hrun
        have hfr := ih _ _ _ _ hrun'
        exact hfr
    · rw [if_neg hp] at hrun
      exact ih _ _ _ _ hrun

theorem processLoop_installed (poll : Nat → Bool)
    (q : List (Entity × Nat × ChunkMeshingTask)) :
    ∀ (w : World) (acc : List Command) (w' : World) (cmds' : List Command),
      processLoop poll q w acc = some (w', cmds') →
      (∀ p, p ∈ w.installed → p ∈ w'.installed) ∧
      (∀ p, p ∈ w'.installed → p ∈ w.installed ∨
        ∃ en ∈ q, p = (en.1, en.2.2.id) ∧ poll en.2.2.id = true) := by
  induction q with
  | nil =>
    intro w acc w' cmds' hrun
    simp only [processLoop, Option.some.injEq, Prod.mk.injEq] at hrun
    rw [← hrun.1]
    exact ⟨fun p hp => hp, fun p hp => Or.inl hp⟩
  | cons entry rest ih =>
    intro w acc w' cmds' hrun
    obtain ⟨e, h, t⟩ := entry
    simp only [processLoop] at hrun
    by_cases hp : poll t.id = true
    · rw [if_pos hp] at hrun
      cases hm : alookup w.meshes h with
      | none => rw [hm] at hrun; exact Option.noConfusion hrun
      | some m =>
        rw [hm] at hrun
        have hrun' : processLoop poll rest
            { w with meshes := ainsert w.meshes h t.result,
                     visibleC := ainsert w.visibleC e true,
                     installed := w.installed ++ [(e, t.id)] }
            (acc ++ [Command.removeTask e]) = some (w', cmds') := hrun
        rcases ih _ _ _ _ hrun' with ⟨mono, src⟩
        constructor
        · intro p hp'
          exact mono p (List.mem_append_left _ hp')
        · intro p hp'
          rcases src p hp' with hin | ⟨en, hen, hpe, hpo⟩
          · rcases List.mem_append.mp hin with hin | hin
            · exact Or.inl hin
            · simp only [List.mem_singleton] at hin
              exact Or.inr ⟨(e, h, t), List.mem_cons_self _ _, by rw [hin], hp⟩
          · exact Or.inr ⟨en, List.mem_cons_of_mem _ hen, hpe, hpo⟩
    · rw [if_neg hp] at hrun
      rcases ih _ _ _ _ hrun with ⟨mono, src⟩
      refine ⟨mono, fun p hp' => ?_⟩
      rcases src p hp' with hin | ⟨en, hen, hpe, hpo⟩
      · exact Or.inl hin
      · exact Or.inr ⟨en, List.mem_cons_of_mem _ hen, hpe, hpo⟩

theorem processLoop_cmds (poll : Nat → Bool)
    (q : List (Entity × Nat × ChunkMeshingTask)) :
    ∀ (w : World) (acc : List Command) (w' : World) (cmds' : List Command),
      processLoop poll q w acc = some (w', cmds') →
      (∀ c, c ∈ acc → c ∈ cmds') ∧
      (∀ c, c ∈ cmds' → c ∈ acc ∨
        ∃ en ∈ q, c = Command.removeTask en.1 ∧ poll en.2.2.id = true) := by
  induction q with
  | nil =>
    intro w acc w' cmds' hrun
    simp only [processLoop, Option.some.injEq, Prod.mk.injEq] at hrun
    rw [← hrun.2]
    exact ⟨fun c hc => hc, fun c hc => Or.inl hc⟩
  | cons entry rest ih =>
    intro w acc w' cmds' hrun
    obtain ⟨e, h, t⟩ := entry
    simp only [processLoop] at hrun
    by_cases hp : poll t.id = true
    · rw [if_pos hp] at hrun
      cases hm : alookup w.meshes h with
      | none => rw [hm] at hrun; exact Option.noConfusion hrun
      | some m =>
        rw [hm] at hrun
        have hrun' : processLoop poll rest
            { w with meshes := ainsert w.meshes h t.result,
                     visibleC := ainsert w.visibleC e true,
                     installed := w.installed ++ [(e, t.id)] }
            (acc ++ [Command.removeTask e]) = some (w', cmds') := hrun
        rcases ih _ _ _ _ hrun' with ⟨mono, src⟩
        constructor
        · intro c hc
          exact mono c (List.mem_append_left _ hc)
        · intro c hc
          rcases src c hc with hin | ⟨en, hen, hce, hpo⟩
          · rcases List.mem_append.mp hin with hin | hin
            · exact Or.inl hin
            · simp only [List.mem_singleton] at hin
              exact Or.inr ⟨(e, h, t), List.mem_cons_self _ _, hin, hp⟩
          · exact Or.inr ⟨en, List.mem_cons_of_mem _ hen, hce, hpo⟩
    · rw [if_neg hp] at hrun
      rcases ih _ _ _ _ hrun with ⟨mono, src⟩
      refine ⟨mono, fun c hc => ?_⟩
      rcases src c hc with hin | ⟨en, hen, hce, hpo⟩
      · exact Or.inl hin
      · exact Or.inr ⟨en, List.mem_cons_of_mem _ hen, hce, hpo⟩

theorem processLoop_untouched (poll : Nat → Bool)
    (q : List (Entity × Nat × ChunkMeshingTask)) :
    ∀ (w : World) (acc : List Command) (w' : World) (cmds' : List Command),
      processLoop poll q w acc = some (w', cmds') →
      (∀ e₀, e₀ ∉ q.map (fun p => p.1) →
        alookup w'.visibleC e₀ = alookup w.visibleC e₀) ∧
      (∀ h₀, h₀ ∉ q.map (fun p => p.2.1) →
        alookup w'.meshes h₀ = alookup w.meshes h₀) := by
  induction q with
  | nil =>
    intro w acc w' cmds' hrun
    simp only [processLoop, Option.some.injEq, Prod.mk.injEq] at hrun
    rw [← hrun.1]
    exact ⟨fun _ _ => rfl, fun _ _ => rfl⟩
  | cons entry rest ih =>
    intro w acc w' cmds' hrun
    obtain ⟨e, h, t⟩ := entry
    simp only [processLoop] at hrun
    by_cases hp : poll t.id = true
    · rw [if_pos hp] at hrun
      cases hm : alookup w.meshes h with
      | none => rw [hm] at hrun; exact Option.noConfusion hrun
      | some m =>
        rw [hm] at hrun
        have hrun' : processLoop poll rest
            { w with meshes := ainsert w.meshes h t.result,
                     visibleC := ainsert w.visibleC e true,
                     installed := w.installed ++ [(e, t.id)] }
            (acc ++ [Command.removeTask e]) = some (w', cmds') := hrun
        rcases ih _ _ _ _ hrun' with ⟨hv, hme⟩
        constructor
        · intro e₀ he₀
          rw [List.map_cons, List.mem_cons] at he₀
          push_neg at he₀
          rw [hv e₀ he₀.2]
          exact alookup_ainsert_ne _ _ _ _ he₀.1
        · intro h₀ hh₀
          rw [List.map_cons, List.mem_cons] at hh₀
          push_neg at hh₀
          rw [hme h₀ hh₀.2]
          exact alookup_ainsert_ne _ _ _ _ hh₀.1
    · rw [if_neg hp] at hrun
      rcases ih _ _ _ _ hrun with ⟨hv, hme⟩
      constructor
      · intro e₀ he₀
        rw [List.map_cons, List.mem_cons] at he₀
        push_neg at he₀
        exact hv e₀ he₀.2
      · intro h₀ hh₀
        rw [List.map_cons, List.mem_cons] at hh₀
        push_neg at hh₀
        exact hme h₀ hh₀.2

theorem processLoop_total (poll : Nat → Bool)
    (q : List (Entity × Nat × ChunkMeshingTask)) :
    ∀ (w : World) (acc : List Command),
      (∀ p ∈ q, (alookup w.meshes p.2.1).isSome = true) →
      ∃ r, processLoop poll q w acc = some r := by
  induction q with
  | nil => intro w acc _; exact ⟨(w, acc), rfl⟩
  | cons entry rest ih =>
    intro w acc hpres
    obtain ⟨e, h, t⟩ := entry
    simp only [processLoop]
    by_cases hp : poll t.id = true
    · rw [if_pos hp]
      cases hm : alookup w.meshes h with
      | none =>
        have := hpres (e, h, t) (List.mem_cons_self _ _)
        rw [hm] at this
        exact absurd this (by simp)
      | some m =>
        refine ih _ _ fun p hp' => ?_
        exact alookup_isSome_ainsert (hpres p (List.mem_cons_of_mem _ hp'))
    · rw [if_neg hp]
      exact ih _ _ fun p hp' => hpres p (List.mem_cons_of_mem _ hp')

/-- The per-entity effect of one `process_mesh_tasks` pass on an entity
whose query row is `(e, hh, t)`, provided no other row shares its entity or
its mesh handle: a completed poll installs the produced mesh behind the
handle, turns visibility on, buffers the marker removal and logs the
installation; an incomplete poll leaves the mesh and visibility exactly as
they were. -/
theorem processLoop_effect (poll : Nat → Bool)
    (q : List (Entity × Nat × ChunkMeshingTask)) :
    ∀ (w : World) (acc : List Command) {e : Entity} {hh : Nat}
      {t : ChunkMeshingTask},
      (e, hh, t) ∈ q →
      (q.map (fun p => p.1)).Nodup →
      (∀ p ∈ q, p.2.1 = hh → p.1 = e) →
      ∀ (w' : World) (cmds' : List Command),
        processLoop poll q w acc = some (w', cmds') →
        (poll t.id = true →
          alookup w'.meshes hh = some t.result ∧
          alookup w'.visibleC e = some true ∧
          Command.removeTask e ∈ cmds' ∧ (e, t.id) ∈ w'.installed) ∧
        (poll t.id = false →
          alookup w'.meshes hh = alookup w.meshes hh ∧
          alookup w'.visibleC e = alookup w.visibleC e) := by
  induction q with
  | nil =>
    intro w acc e hh t hmem
    simp at hmem
  | cons entry rest ih =>
    intro w acc e hh t hmem hnd huniq w' cmds' hrun
    obtain ⟨e₀, h₀, t₀⟩ := entry
    rw [List.map_cons, List.nodup_cons] at hnd
    rcases List.mem_cons.mp hmem with hhead | htail
    · injection hhead with h1 h2
      injection h2 with h3 h4
      subst h1
      subst h3
      subst h4
      have hhh : hh ∉ rest.map (fun p => p.2.1) := by
        intro hcon
        rcases List.mem_map.mp hcon with ⟨p, hp', hph⟩
        have hpe := huniq p (List.mem_cons_of_mem _ hp') hph
        exact hnd.1 (List.mem_map.mpr ⟨p, hp', hpe⟩)
      simp only [processLoop] at hrun
      constructor
      · intro hp
        rw [if_pos hp] at hrun
        cases hm : alookup w.meshes hh with
        | none => rw [hm] at hrun; exact Option.noConfusion hrun
        | some m =>
          rw [hm] at hrun
          have hrun' : processLoop poll rest
              { w with meshes := ainsert w.meshes hh t.result,
                       visibleC := ainsert w.visibleC e true,
                       installed := w.installed ++ [(e, t.id)] }
              (acc ++ [Command.removeTask e]) = some (w', cmds') := hrun
          rcases processLoop_untouched poll rest _ _ _ _ hrun' with ⟨hv, hme⟩
          rcases processLoop_cmds poll rest _ _ _ _ hrun' with ⟨cmono, _⟩
          rcases processLoop_installed poll rest _ _ _ _ hrun' with ⟨imono, _⟩
          refine ⟨?_, ?_, ?_, ?_⟩
          · rw [hme hh hhh]
            exact alookup_ainsert_self _ _ _
          · rw [hv e hnd.1]
            exact alookup_ainsert_self _ _ _
          · exact cmono _ (List.mem_append_right _ (List.mem_singleton.mpr rfl))
          · exact imono _ (List.mem_append_right _ (List.mem_singleton.mpr rfl))
      · intro hp
        rw [if_neg (by rw [hp]; exact Bool.false_ne_true)] at hrun
        rcases processLoop_untouched poll rest _ _ _ _ hrun with ⟨hv, hme⟩
        exact ⟨hme hh hhh, hv e hnd.1⟩
    · have hne : e₀ ≠ e := by
        intro hcon
        exact hnd.1 (hcon ▸ List.mem_map.mpr ⟨(e, hh, t), htail, rfl⟩)
      have hneh : hh ≠ h₀ := by
        intro hcon
        exact hne (huniq (e₀, h₀, t₀) (List.mem_cons_self _ _) hcon.symm)
      have huniq' : ∀ p ∈ rest, p.2.1 = hh → p.1 = e :=
        fun p hp' hph => huniq p (List.mem_cons_of_mem _ hp') hph
      simp only [processLoop] at hrun
      by_cases hp0 : poll t₀.id = true
      · rw [if_pos hp0] at hrun
        cases hm : alookup w.meshes h₀ with
        | none => rw [hm] at hrun; exact Option.noConfusion hrun
        | some m =>
          rw [hm] at hrun
          have hrun' : processLoop poll rest
              { w with meshes := ainsert w.meshes h₀ t₀.result,
                       visibleC := ainsert w.visibleC e₀ true,
                       installed := w.installed ++ [(e₀, t₀.id)] }
              (acc ++ [Command.removeTask e₀]) = some (w', cmds') := hrun
          have hrec := ih _ _ htail hnd.2 huniq' w' cmds' hrun'
          refine ⟨hrec.1, fun hp => ?_⟩
          rcases hrec.2 hp with ⟨hm2, hv2⟩
          constructor
          · rw [hm2]
            exact alookup_ainsert_ne _ _ _ _ hneh
          · rw [hv2]
            exact alookup_ainsert_ne _ _ _ _ (Ne.symm hne)
      · rw [if_neg hp0] at hrun
        exact ih _ _ htail hnd.2 huniq' w' cmds' hrun

/-! ## prepare_chunks lemmas -/

theorem mem_akeys_ainsert_of_mem {κ α : Type} [DecidableEq κ]
    {l : List (κ × α)} {k a : κ} {v : α} (h : a ∈ akeys l) :
    a ∈ akeys (ainsert l k v) := by
  induction l with
  | nil => simp [akeys] at h
  | cons hd tl ih =>
    obtain ⟨k', v'⟩ := hd
    rw [akeys_cons] at h
    by_cases hk : k' = k
    · rw [show ainsert ((k', v') :: tl) k v = (k, v) :: tl from by
        simp [ainsert, hk], akeys_cons]
      rcases List.mem_cons.mp h with h | h
      · rw [h, hk]
        exact List.mem_cons_self _ _
      · exact List.mem_cons_of_mem _ h
    · rw [show ainsert ((k', v') :: tl) k v = (k', v') :: ainsert tl k v from by
        simp [ainsert, hk], akeys_cons]
      rcases List.mem_cons.mp h with h | h
      · rw [h]
        exact List.mem_cons_self _ _
      · exact List.mem_cons_of_mem _ (ih h)

theorem prepareLoop_frame (q : List (Entity × IVec3)) :
    ∀ w : World, (prepareLoop q w).entities = w.entities ∧
      (prepareLoop q w).chunkC = w.chunkC ∧
      (prepareLoop q w).taskC = w.taskC ∧
      (prepareLoop q w).dirty = w.dirty ∧
      (prepareLoop q w).chunkEntities = w.chunkEntities ∧
      (prepareLoop q w).chunkMap = w.chunkMap ∧
      (prepareLoop q w).nextTaskId = w.nextTaskId ∧
      (prepareLoop q w).installed = w.installed := by
  induction q with
  | nil => intro w; exact ⟨rfl, rfl, rfl, rfl, rfl, rfl, rfl, rfl⟩
  | cons entry rest ih =>
    intro w
    obtain ⟨e, key⟩ := entry
    exact ih _

/-- `prepare_chunks` only ever adds meshes at fresh handles, so lookups
below the handle counter are untouched. -/
theorem prepareLoop_meshes_lookup (q : List (Entity × IVec3)) :
    ∀ (w : World) (h₀ : Nat), h₀ < w.nextHandle →
      alookup (prepareLoop q w).meshes h₀ = alookup w.meshes h₀ := by
  induction q with
  | nil => intro w h₀ _; rfl
  | cons entry rest ih =>
    intro w h₀ hlt
    obtain ⟨e, key⟩ := entry
    rw [show prepareLoop ((e, key) :: rest) w = prepareLoop rest
      { w with
        meshes := ainsert w.meshes w.nextHandle (Mesh.new PrimitiveTopology.TriangleList),
        nextHandle := w.nextHandle + 1,
        handleC := ainsert w.handleC e w.nextHandle,
        transformC := ainsert w.transformC e key,
        visibleC := ainsert w.visibleC e false,
        aabbC := ainsert w.aabbC e
          ⟨⟨0, 0, 0⟩,
           ⟨(CHUNK_LENGTH : Int), (CHUNK_LENGTH : Int), (CHUNK_LENGTH : Int)⟩⟩ }
      from rfl]
    rw [ih _ h₀ (Nat.lt_succ_of_lt hlt)]
    exact alookup_ainsert_ne _ _ _ _ (Nat.ne_of_lt hlt)

theorem prepareLoop_untouched (q : List (Entity × IVec3)) :
    ∀ (w : World) (e₀ : Entity), e₀ ∉ q.map (fun p => p.1) →
      alookup (prepareLoop q w).handleC e₀ = alookup w.handleC e₀ ∧
      alookup (prepareLoop q w).visibleC e₀ = alookup w.visibleC e₀ ∧
      alookup (prepareLoop q w).transformC e₀ = alookup w.transformC e₀ ∧
      alookup (prepareLoop q w).aabbC e₀ = alookup w.aabbC e₀ := by
  induction q with
  | nil => intro w e₀ _; exact ⟨rfl, rfl, rfl, rfl⟩
  | cons entry rest ih =>
    intro w e₀ he₀
    obtain ⟨e, key⟩ := entry
    rw [List.map_cons, List.mem_cons] at he₀
    push_neg at he₀
    rcases ih _ e₀ he₀.2 with ⟨h1, h2, h3, h4⟩
    refine ⟨?_, ?_, ?_, ?_⟩
    · rw [show (prepareLoop ((e, key) :: rest) w).handleC =
        (prepareLoop rest _).handleC from rfl, h1]
      exact alookup_ainsert_ne _ _ _ _ he₀.1
    · rw [show (prepareLoop ((e, key) :: rest) w).visibleC =
        (prepareLoop rest _).visibleC from rfl, h2]
      exact alookup_ainsert_ne _ _ _ _ he₀.1
    · rw [show (prepareLoop ((e, key) :: rest) w).transformC =
        (prepareLoop rest _).transformC from rfl, h3]
      exact alookup_ainsert_ne _ _ _ _ he₀.1
    · rw [show (prepareLoop ((e, key) :: rest) w).aabbC =
        (prepareLoop rest _).aabbC from rfl, h4]
      exact alookup_ainsert_ne _ _ _ _ he₀.1

/-- The initialization `prepare_chunks` performs for each newly added chunk
entity: a freshly allocated handle to an empty triangle-list mesh,
visibility off, the translation at the chunk key and the chunk-local
bounding box. -/
theorem prepareLoop_effect (q : List (Entity × IVec3)) :
    ∀ (w : World) {e : Entity} {key : IVec3},
      (e, key) ∈ q → (q.map (fun p => p.1)).Nodup →
      (∀ k ∈ akeys w.meshes, k < w.nextHandle) →
      ∃ h, alookup (prepareLoop q w).handleC e = some h ∧
        alookup (prepareLoop q w).meshes h =
          some (Mesh.new PrimitiveTopology.TriangleList) ∧
        alookup w.meshes h = none ∧
        alookup (prepareLoop q w).visibleC e = some false ∧
        alookup (prepareLoop q w).transformC e = some key ∧
        alookup (prepareLoop q w).aabbC e =
          some ⟨⟨0, 0, 0⟩,
            ⟨(CHUNK_LENGTH : Int), (CHUNK_LENGTH : Int), (CHUNK_LENGTH : Int)⟩⟩ := by
  induction q with
  | nil => intro w e key hmem; simp at hmem
  | cons entry rest ih =>
    intro w e key hmem hnd hfr
    obtain ⟨e₀, key₀⟩ := entry
    rw [List.map_cons, List.nodup_cons] at hnd
    have hstep : prepareLoop ((e₀, key₀) :: rest) w = prepareLoop rest
        { w with
          meshes := ainsert w.meshes w.nextHandle (Mesh.new PrimitiveTopology.TriangleList),
          nextHandle := w.nextHandle + 1,
          handleC := ainsert w.handleC e₀ w.nextHandle,
          transformC := ainsert w.transformC e₀ key₀,
          visibleC := ainsert w.visibleC e₀ false,
          aabbC := ainsert w.aabbC e₀
            ⟨⟨0, 0, 0⟩,
             ⟨(CHUNK_LENGTH : Int), (CHUNK_LENGTH : Int), (CHUNK_LENGTH : Int)⟩⟩ } := rfl
    rcases List.mem_cons.mp hmem with hhead | htail
    · injection hhead with h1 h2
      subst h1
      subst h2
      rw [hstep]
      rcases prepareLoop_untouched rest _ e hnd.1 with ⟨hu1, hu2, hu3, hu4⟩
      refine ⟨w.nextHandle, ?_, ?_, ?_, ?_, ?_, ?_⟩
      · rw [hu1]
        exact alookup_ainsert_self _ _ _
      · rw [prepareLoop_meshes_lookup rest _ w.nextHandle (Nat.lt_succ_self _)]
        exact alookup_ainsert_self _ _ _
      · refine alookup_eq_none_iff.mpr fun hk => ?_
        exact Nat.lt_irrefl _ (hfr _ hk)
      · rw [hu2]
        exact alookup_ainsert_self _ _ _
      · rw [hu3]
        exact alookup_ainsert_self _ _ _
      · rw [hu4]
        exact alookup_ainsert_self _ _ _
    · rw [hstep]
      have hfr' : ∀ k ∈ akeys (ainsert w.meshes w.nextHandle
          (Mesh.new PrimitiveTopology.TriangleList)), k < w.nextHandle + 1 := by
        intro k hk
        rcases mem_akeys_ainsert hk with hk | hk
        · exact Nat.lt_succ_of_lt (hfr _ hk)
        · rw [hk]
          exact Nat.lt_succ_self _
      rcases ih { w with
          meshes := ainsert w.meshes w.nextHandle (Mesh.new PrimitiveTopology.TriangleList),
          nextHandle := w.nextHandle + 1,
          handleC := ainsert w.handleC e₀ w.nextHandle,
          transformC := ainsert w.transformC e₀ key₀,
          visibleC := ainsert w.visibleC e₀ false,
          aabbC := ainsert w.aabbC e₀
            ⟨⟨0, 0, 0⟩,
             ⟨(CHUNK_LENGTH : Int), (CHUNK_LENGTH : Int), (CHUNK_LENGTH : Int)⟩⟩ }
        htail hnd.2 hfr' with ⟨h, hh1, hh2, hh3, hh4, hh5, hh6⟩
      refine ⟨h, hh1, hh2, ?_, hh4, hh5, hh6⟩
      rw [alookup_eq_none_iff] at hh3 ⊢
      intro hk
      exact hh3 (mem_akeys_ainsert_of_mem hk)

theorem prepareQueryEntry_some {w : World} {e : Entity} {p : Entity × IVec3}
    (h : prepareQueryEntry w e = some p) : p.1 = e := by
  unfold prepareQueryEntry at h
  by_cases he : e ∈ w.entities
  · rw [if_pos he] at h
    cases hc : alookup w.chunkC e with
    | none => rw [hc] at h; exact Option.noConfusion h
    | some key =>
      rw [hc] at h
      injection h with h
      rw [← h]
  · rw [if_neg he] at h
    exact Option.noConfusion h

theorem prepareQuery_fst_sublist (w : World) (added : List Entity) :
    List.Sublist ((prepareQuery w added).map (fun p => p.1)) added := by
  unfold prepareQuery
  induction added with
  | nil => simp
  | cons a tl ih =>
    cases hfa : prepareQueryEntry w a with
    | none =>
      rw [show List.filterMap (prepareQueryEntry w) (a :: tl) =
        List.filterMap (prepareQueryEntry w) tl from by
        simp [List.filterMap_cons, hfa]]
      exact ih.cons a
    | some p =>
      rw [show List.filterMap (prepareQueryEntry w) (a :: tl) =
        p :: List.filterMap (prepareQueryEntry w) tl from by
        simp [List.filterMap_cons, hfa]]
      rw [List.map_cons, prepareQueryEntry_some hfa]
      exact ih.cons₂ a

theorem prepareQuery_mem_intro {w : World} {added : List Entity} {e : Entity}
    {key : IVec3} (ha : e ∈ added) (he : e ∈ w.entities)
    (hc : alookup w.chunkC e = some key) : (e, key) ∈ prepareQuery w added := by
  refine List.mem_filterMap.mpr ⟨e, ha, ?_⟩
  simp [prepareQueryEntry, he, hc]

/-! ## The retired-task invariant -/

theorem not_mem_attachedIds {w : World} {tid : Nat} :
    tid ∉ attachedIds w ↔ ∀ p ∈ w.taskC, p.2.id ≠ tid := by
  unfold attachedIds
  constructor
  · intro h p hp hep
    exact h (List.mem_map.mpr ⟨p, hp, hep⟩)
  · intro h hmem
    rcases List.mem_map.mp hmem with ⟨p, hp, hep⟩
    exact h p hp hep

/-- Structure of a successful `ChunkMeshingStage` pass: the integrator ran
on the scheduler's direct output, then the two command buffers flushed in
order. -/
theorem chunkMeshingStage_struct {poll : Nat → Bool} {w w' : World}
    (h : chunkMeshingStage poll w = some w') :
    ∃ pr : World × List Command,
      process_mesh_tasks poll (queue_mesh_tasks w).1 = some pr ∧
      w'.taskC =
        applyTaskCmds (applyTaskCmds pr.1.taskC (queue_mesh_tasks w).2) pr.2 ∧
      w'.installed = pr.1.installed ∧ w'.nextTaskId = pr.1.nextTaskId ∧
      pr.1.taskC = w.taskC ∧
      pr.1.nextTaskId = w.nextTaskId + (queueSpawnList w).length ∧
      w'.entities = pr.1.entities ∧ w'.meshes = pr.1.meshes ∧
      w'.visibleC = pr.1.visibleC ∧ w'.handleC = pr.1.handleC := by
  have h' : (match process_mesh_tasks poll (queue_mesh_tasks w).1 with
      | none => none
      | some (w2, pCmds) =>
        some (applyCommands (applyCommands w2 (queue_mesh_tasks w).2) pCmds)) =
      some w' := h
  cases hpm : process_mesh_tasks poll (queue_mesh_tasks w).1 with
  | none => rw [hpm] at h'; exact Option.noConfusion h'
  | some pr =>
    obtain ⟨w2, pCmds⟩ := pr
    rw [hpm] at h'
    injection h' with h'
    have hfr := processLoop_frame poll (processQuery (queue_mesh_tasks w).1)
      (queue_mesh_tasks w).1 [] w2 pCmds hpm
    refine ⟨(w2, pCmds), rfl, ?_, ?_, ?_, ?_, ?_, ?_, ?_, ?_, ?_⟩
    · rw [← h', applyCommands_eq, applyCommands_eq]
    · rw [← h', applyCommands_eq, applyCommands_eq]
    · rw [← h', applyCommands_eq, applyCommands_eq]
    · exact hfr.2.2.2.1
    · exact hfr.2.2.2.2.2.2.2.2.2.1
    · rw [← h', applyCommands_eq, applyCommands_eq]
    · rw [← h', applyCommands_eq, applyCommands_eq]
    · rw [← h', applyCommands_eq, applyCommands_eq]
    · rw [← h', applyCommands_eq, applyCommands_eq]

/-- One pipeline step preserves retirement of a task id, and installs no
retired task's result. -/
theorem retired_wstep {w w' : World} {tid : Nat} (hr : Retired w tid)
    (hs : WStep w w') :
    Retired w' tid ∧ ∀ p ∈ w'.installed, p ∈ w.installed ∨ p.2 ≠ tid := by
  cases hs with
  | mesh poll hw hw' hstage =>
    rcases chunkMeshingStage_struct hstage with
      ⟨pr, hpm, htask, hinst, hnext, hprt, hprn, _⟩
    have hremoves : ∀ c ∈ pr.2, ∃ e', c = Command.removeTask e' := by
      intro c hc
      rcases (processLoop_cmds poll (processQuery (queue_mesh_tasks w).1)
          (queue_mesh_tasks w).1 [] pr.1 pr.2 hpm).2 c hc with hin | ⟨en, _, hce, _⟩
      · simp at hin
      · exact ⟨en.1, hce⟩
    constructor
    · constructor
      · rw [not_mem_attachedIds]
        intro p hp
        rw [htask, hprt] at hp
        have hp₂ := applyTaskCmds_removes_subset hremoves p hp
        rcases mem_applyTaskCmds hp₂ with ⟨e', t', hc', hpe⟩ | hmem
        · rcases queue_cmds_inserts w _ hc' with ⟨e₂, t₂, heq, hid⟩
          injection heq with he₂ ht₂
          intro hcon
          have hc2 : t₂.id = tid := by
            rw [← ht₂]
            rw [hpe] at hcon
            exact hcon
          rw [hc2] at hid
          exact Nat.lt_irrefl tid (Nat.lt_of_lt_of_le hr.2 hid)
        · exact not_mem_attachedIds.mp hr.1 p hmem
      · rw [hnext, hprn]
        exact Nat.lt_of_lt_of_le hr.2 (Nat.le_add_right _ _)
    · intro p hp
      rw [hinst] at hp
      rcases (processLoop_installed poll (processQuery (queue_mesh_tasks w).1)
          (queue_mesh_tasks w).1 [] pr.1 pr.2 hpm).2 p hp with
        hin | ⟨en, hen, hpe, _⟩
      · exact Or.inl hin
      · rcases processQuery_mem (by
          rw [show en = (en.1, en.2.1, en.2.2) from rfl] at hen
          exact hen) with ⟨_, _, htsk⟩
        have hmem : (en.1, en.2.2) ∈ w.taskC := mem_of_alookup htsk
        refine Or.inr ?_
        rw [hpe]
        exact not_mem_attachedIds.mp hr.1 (en.1, en.2.2) hmem
  | prepare added =>
    have hfr := prepareLoop_frame (prepareQuery w added) w
    constructor
    · constructor
      · rw [not_mem_attachedIds]
        intro p hp
        rw [show (prepare_chunks w added).taskC = w.taskC from hfr.2.2.1] at hp
        exact not_mem_attachedIds.mp hr.1 p hp
      · rw [show (prepare_chunks w added).nextTaskId = w.nextTaskId from
          hfr.2.2.2.2.2.2.1]
        exact hr.2
    · intro p hp
      rw [show (prepare_chunks w added).installed = w.installed from
        hfr.2.2.2.2.2.2.2] at hp
      exact Or.inl hp
  | resources d ce cm =>
    exact ⟨⟨hr.1, hr.2⟩, fun p hp => Or.inl hp⟩
  | spawnChunk e key hw hnot =>
    exact ⟨⟨hr.1, hr.2⟩, fun p hp => Or.inl hp⟩
  | despawn e =>
    constructor
    · constructor
      · rw [not_mem_attachedIds]
        intro p hp
        exact not_mem_attachedIds.mp hr.1 p (mem_aerase hp)
      · exact hr.2
    · intro p hp
      exact Or.inl hp

/-- A retired task id stays retired along every reachable future, and its
result is never installed there. -/
theorem retired_reach {w w' : World} {tid : Nat} (hr : Retired w tid)
    (hre : Reach w w') :
    Retired w' tid ∧ ∀ p ∈ w'.installed, p ∈ w.installed ∨ p.2 ≠ tid := by
  induction hre with
  | refl => exact ⟨hr, fun p hp => Or.inl hp⟩
  | tail _ hstep ih =>
    rcases ih with ⟨hrb, hib⟩
    rcases retired_wstep hrb hstep with ⟨hrc, hic⟩
    refine ⟨hrc, fun p hp => ?_⟩
    rcases hic p hp with hpb | hne
    · exact hib p hpb
    · exact Or.inr hne

/-- Every pipeline step keeps the task storage a map: at most one
`ChunkMeshingTask` per entity. -/
theorem wstep_taskC_nodup {w w' : World} (hnd : (akeys w.taskC).Nodup)
    (hs : WStep w w') : (akeys w'.taskC).Nodup := by
  cases hs with
  | mesh poll hw hw' hstage =>
    rcases chunkMeshingStage_struct hstage with ⟨pr, hpm, htask, _, _, hprt, _⟩
    rw [htask, hprt]
    exact nodup_applyTaskCmds (nodup_applyTaskCmds hnd)
  | prepare added =>
    rw [show (prepare_chunks w added).taskC = w.taskC from
      (prepareLoop_frame (prepareQuery w added) w).2.2.1]
    exact hnd
  | resources d ce cm => exact hnd
  | spawnChunk e key hw hnot => exact hnd
  | despawn e => exact nodup_akeys_aerase hnd

theorem reach_taskC_nodup {w w' : World} (hnd : (akeys w.taskC).Nodup)
    (hre : Reach w w') : (akeys w'.taskC).Nodup := by
  induction hre with
  | refl => exact hnd
  | tail _ hstep ih => exact wstep_taskC_nodup ih hstep

/-- A `ChunkMeshingStage` pass that schedules a chunk whose entity already
carries a task `t1` — and whose single poll does not observe `t1` complete —
retires `t1`: after the flush the entity tracks a different, fresh task, and
neither this pass nor any later one installs `t1`'s result. -/
theorem replacement_retires {w w' : World} {poll : Nat → Bool} {e : Entity}
    {t1 : ChunkMeshingTask} {key : IVec3} {b : ChunkBuffer}
    (hnd : (akeys w.taskC).Nodup)
    (hatt : alookup w.taskC e = some t1)
    (huniq : ∀ p ∈ w.taskC, p.2.id = t1.id → p.1 = e)
    (hfresh : t1.id < w.nextTaskId)
    (hkey : key ∈ w.dirty) (hce : alookup w.chunkEntities key = some e)
    (hcm : alookup w.chunkMap key = some b)
    (hpoll : poll t1.id = false)
    (hstage : chunkMeshingStage poll w = some w') :
    Retired w' t1.id ∧
    (∃ t2, alookup w'.taskC e = some t2 ∧ t2.id ≠ t1.id) ∧
    (∀ p ∈ w'.installed, p ∈ w.installed ∨ p.2 ≠ t1.id) := by
  rcases chunkMeshingStage_struct hstage with
    ⟨pr, hpm, htask, hinst, hnext, hprt, hprn, _⟩
  have hqins : ∀ c ∈ (queue_mesh_tasks w).2, ∃ e' t', c = Command.insertTask e' t' :=
    fun c hc => by
      rcases queue_cmds_inserts w c hc with ⟨e', t', hc', _⟩
      exact ⟨e', t', hc'⟩
  have hins : ∃ t2, Command.insertTask e t2 ∈ (queue_mesh_tasks w).2 :=
    queue_schedules hkey hce hcm
  have hremoves : ∀ c ∈ pr.2, ∃ e', c = Command.removeTask e' := by
    intro c hc
    rcases (processLoop_cmds poll (processQuery (queue_mesh_tasks w).1)
        (queue_mesh_tasks w).1 [] pr.1 pr.2 hpm).2 c hc with hin | ⟨en, _, hce', _⟩
    · simp at hin
    · exact ⟨en.1, hce'⟩
  have hnorem : Command.removeTask e ∉ pr.2 := by
    intro hc
    rcases (processLoop_cmds poll (processQuery (queue_mesh_tasks w).1)
        (queue_mesh_tasks w).1 [] pr.1 pr.2 hpm).2 _ hc with hin | ⟨en, hen, hce', hpo⟩
    · simp at hin
    · injection hce' with hen1
      rcases processQuery_mem (by
        rw [show en = (en.1, en.2.1, en.2.2) from rfl] at hen
        exact hen) with ⟨_, _, htsk⟩
      have htsk' : alookup w.taskC en.1 = some en.2.2 := htsk
      rw [← hen1] at htsk'
      rw [hatt] at htsk'
      injection htsk' with htsk'
      rw [← htsk'] at hpo
      rw [hpoll] at hpo
      exact Bool.false_ne_true hpo
  -- the task storage after the scheduler's flush
  have hL1nd : (akeys (applyTaskCmds w.taskC (queue_mesh_tasks w).2)).Nodup :=
    nodup_applyTaskCmds hnd
  have hL1e : ∀ p ∈ applyTaskCmds w.taskC (queue_mesh_tasks w).2, p.2.id = t1.id →
      False := by
    intro p hp hpid
    by_cases hpe : p.1 = e
    · rcases applyTaskCmds_insert_binding hnd hins p hp hpe with ⟨t0, ht0, hp0⟩
      rcases queue_cmds_inserts w _ ht0 with ⟨e₂, t₂, heq, hid⟩
      injection heq with he₂ ht₂
      have : t1.id < t0.id := by
        rw [ht₂]
        exact Nat.lt_of_lt_of_le hfresh hid
      rw [hp0] at hpid
      rw [hpid] at this
      exact Nat.lt_irrefl _ this
    · rcases mem_applyTaskCmds hp with ⟨e', t', hc', hp'⟩ | hmem
      · rcases queue_cmds_inserts w _ hc' with ⟨e₂, t₂, heq, hid⟩
        injection heq with he₂ ht₂
        have : t1.id < t'.id := by
          rw [ht₂]
          exact Nat.lt_of_lt_of_le hfresh hid
        rw [hp'] at hpid
        rw [hpid] at this
        exact Nat.lt_irrefl _ this
      · exact hpe (huniq p hmem hpid)
  refine ⟨⟨?_, ?_⟩, ?_, ?_⟩
  · rw [not_mem_attachedIds]
    intro p hp hpid
    rw [htask, hprt] at hp
    exact hL1e p (applyTaskCmds_removes_subset hremoves p hp) hpid
  · rw [hnext, hprn]
    exact Nat.lt_of_lt_of_le hfresh (Nat.le_add_right _ _)
  · have hiso : (alookup (applyTaskCmds w.taskC (queue_mesh_tasks w).2) e).isSome =
        true := applyTaskCmds_inserts_isSome hqins hins
    cases ht2 : alookup (applyTaskCmds w.taskC (queue_mesh_tasks w).2) e with
    | none => rw [ht2] at hiso; exact absurd hiso (by simp)
    | some t2 =>
      refine ⟨t2, ?_, ?_⟩
      · rw [htask, hprt]
        rw [applyTaskCmds_removes_lookup_frame hremoves hnorem]
        exact ht2
      · intro hcon
        exact hL1e (e, t2) (mem_of_alookup ht2) hcon
  · intro p hp
    rw [hinst] at hp
    rcases (processLoop_installed poll (processQuery (queue_mesh_tasks w).1)
        (queue_mesh_tasks w).1 [] pr.1 pr.2 hpm).2 p hp with hin | ⟨en, hen, hpe, hpo⟩
    · exact Or.inl hin
    · refine Or.inr ?_
      rw [hpe]
      intro hcon
      rw [show ((en.1, en.2.2.id) : Entity × Nat).2 = en.2.2.id from rfl] at hcon
      rw [hcon] at hpo
      rw [hpoll] at hpo
      exact Bool.false_ne_true hpo

/-! ## Uniform-pipeline lemmas -/

theorem extractPhaseMats_changed {reg : VoxelMaterialRegistry}
    (h : reg.changed = true) (old : Option (GpuTerrainMaterials × Bool)) :
    extractPhaseMats reg old =
      some (⟨writeMaterials (fun _ => extractInitMaterial) 0 reg.mats⟩, true) := by
  unfold extractPhaseMats extract_voxel_materials
  rw [h]
  rfl

theorem extractPhaseMats_unchanged {reg : VoxelMaterialRegistry}
    (h : reg.changed = false) (old : Option (GpuTerrainMaterials × Bool)) :
    extractPhaseMats reg old = old.map (fun p => (p.1, false)) := by
  unfold extractPhaseMats extract_voxel_materials
  rw [h]
  rfl

theorem extractPhaseSettings_changed {radius : ChunkLoadRadius}
    (h : radius.changed = true) (old : Option (GpuTerrainRenderSettings × Bool)) :
    extractPhaseSettings radius old =
      some (⟨i32_as_u32 radius.horizontal⟩, true) := by
  unfold extractPhaseSettings extract_terrain_render_settings_uniform
  rw [h]
  rfl

theorem extractPhaseSettings_unchanged {radius : ChunkLoadRadius}
    (h : radius.changed = false) (old : Option (GpuTerrainRenderSettings × Bool)) :
    extractPhaseSettings radius old = old.map (fun p => (p.1, false)) := by
  unfold extractPhaseSettings extract_terrain_render_settings_uniform
  rw [h]
  rfl

theorem prepare_terrain_uniforms_bind_group {u u' : TerrainUniforms}
    (h : prepare_terrain_uniforms u = some u') : u'.bind_group.isSome = true := by
  unfold prepare_terrain_uniforms at h
  cases hmb : u.materials_buffer.buffer with
  | none => rw [hmb] at h; exact Option.noConfusion h
  | some mb =>
    cases hrb : u.render_distance_params.buffer with
    | none => rw [hmb, hrb] at h; exact Option.noConfusion h
    | some rb =>
      rw [hmb, hrb] at h
      injection h with h
      rw [← h]
      rfl

theorem renderAppFrame_mats_some {reg : VoxelMaterialRegistry}
    {radius : ChunkLoadRadius} {s s' : RenderWorldState} {ev : List RenderEvent}
    (hframe : renderAppFrame reg radius s = some (s', ev)) :
    ∃ mv, extractPhaseMats reg s.gpuMats = some (mv, reg.changed) := by
  by_cases hrc : reg.changed = true
  · rw [extractPhaseMats_changed hrc]
    exact ⟨_, by rw [hrc]⟩
  · have hrc' : reg.changed = false := Bool.eq_false_iff.mpr hrc
    cases hsm : s.gpuMats with
    | none =>
      exfalso
      have hm : extractPhaseMats reg s.gpuMats = none := by
        rw [extractPhaseMats_unchanged hrc', hsm]
        rfl
      unfold renderAppFrame at hframe
      rw [hm] at hframe
      exact Option.noConfusion hframe
    | some pm =>
      rw [extractPhaseMats_unchanged hrc', hrc']
      exact ⟨pm.1, rfl⟩

theorem renderAppFrame_settings_some {reg : VoxelMaterialRegistry}
    {radius : ChunkLoadRadius} {s s' : RenderWorldState} {ev : List RenderEvent}
    (hframe : renderAppFrame reg radius s = some (s', ev)) :
    ∃ dv, extractPhaseSettings radius s.gpuSettings = some (dv, radius.changed) := by
  by_cases hdc : radius.changed = true
  · rw [extractPhaseSettings_changed hdc]
    exact ⟨_, by rw [hdc]⟩
  · have hdc' : radius.changed = false := Bool.eq_false_iff.mpr hdc
    cases hss : s.gpuSettings with
    | none =>
      exfalso
      have hd : extractPhaseSettings radius s.gpuSettings = none := by
        rw [extractPhaseSettings_unchanged hdc', hss]
        rfl
      unfold renderAppFrame at hframe
      rcases renderAppFrame_mats_some hframe with ⟨mv, hm⟩
      rw [hm, hd] at hframe
      exact Option.noConfusion hframe
    | some ps =>
      rw [extractPhaseSettings_unchanged hdc', hdc']
      exact ⟨ps.1, rfl⟩

theorem renderAppFrame_eq_of_extract {reg : VoxelMaterialRegistry}
    {radius : ChunkLoadRadius} {s : RenderWorldState}
    {mv : GpuTerrainMaterials} {mflag : Bool} {dv : GpuTerrainRenderSettings}
    {dflag : Bool}
    (hm : extractPhaseMats reg s.gpuMats = some (mv, mflag))
    (hd : extractPhaseSettings radius s.gpuSettings = some (dv, dflag)) :
    renderAppFrame reg radius s =
      match prepare_terrain_uniforms
        (upload_render_distance_uniform dv dflag
          (upload_voxel_materials mv mflag s.uniforms).1).1 with
      | none => none
      | some u3 =>
        some ({ uniforms := u3,
                gpuMats := some (mv, mflag),
                gpuSettings := some (dv, dflag) },
          ((if reg.changed then [RenderEvent.extractedMaterials] else []) ++
            (if radius.changed then [RenderEvent.extractedRenderDistance] else [])) ++
            (upload_voxel_materials mv mflag s.uniforms).2 ++
            (upload_render_distance_uniform dv dflag
              (upload_voxel_materials mv mflag s.uniforms).1).2 ++
            [RenderEvent.rebuiltBindGroup]) := by
  unfold renderAppFrame
  rw [hm, hd]

theorem renderAppFrame_core {reg : VoxelMaterialRegistry}
    {radius : ChunkLoadRadius} {s s' : RenderWorldState} {ev : List RenderEvent}
    {mv : GpuTerrainMaterials} {mflag : Bool} {dv : GpuTerrainRenderSettings}
    {dflag : Bool}
    (hm : extractPhaseMats reg s.gpuMats = some (mv, mflag))
    (hd : extractPhaseSettings radius s.gpuSettings = some (dv, dflag))
    (hframe : renderAppFrame reg radius s = some (s', ev)) :
    ev = (if reg.changed then [RenderEvent.extractedMaterials] else []) ++
      (if radius.changed then [RenderEvent.extractedRenderDistance] else []) ++
      (if mflag then [RenderEvent.wroteMaterialsBuffer] else []) ++
      (if dflag then [RenderEvent.wroteRenderDistanceBuffer] else []) ++
      [RenderEvent.rebuiltBindGroup] ∧
    s'.uniforms.bind_group.isSome = true := by
  rw [renderAppFrame_eq_of_extract hm hd] at hframe
  cases hpt : prepare_terrain_uniforms
      (upload_render_distance_uniform dv dflag
        (upload_voxel_materials mv mflag s.uniforms).1).1 with
  | none => rw [hpt] at hframe; exact Option.noConfusion hframe
  | some u3 =>
    rw [hpt] at hframe
    injection hframe with hp
    injection hp with h1 h2
    constructor
    · rw [← h2]
      cases mflag <;> cases dflag <;> rfl
    · rw [← h1]
      exact prepare_terrain_uniforms_bind_group hpt

/-- Full characterization of one frame's event log: extraction events
first, then the change-gated buffer writes, then the unconditional
bind-group rebuild last. -/
theorem renderAppFrame_events {reg : VoxelMaterialRegistry}
    {radius : ChunkLoadRadius} {s s' : RenderWorldState} {ev : List RenderEvent}
    (hframe : renderAppFrame reg radius s = some (s', ev)) :
    ev = (if reg.changed then [RenderEvent.extractedMaterials] else []) ++
      (if radius.changed then [RenderEvent.extractedRenderDistance] else []) ++
      (if reg.changed then [RenderEvent.wroteMaterialsBuffer] else []) ++
      (if radius.changed then [RenderEvent.wroteRenderDistanceBuffer] else []) ++
      [RenderEvent.rebuiltBindGroup] ∧
    s'.uniforms.bind_group.isSome = true := by
  rcases renderAppFrame_mats_some hframe with ⟨mv, hm⟩
  rcases renderAppFrame_settings_some hframe with ⟨dv, hd⟩
  exact renderAppFrame_core hm hd hframe

/-! ## Material-table lemmas -/

theorem setSlot_at {tbl : Fin 256 → GpuVoxelMaterial} {i : Nat}
    {m : GpuVoxelMaterial} {j : Fin 256} (h : j.val = i) :
    setSlot tbl i m j = m := by
  unfold setSlot
  have hi : i < 256 := h ▸ j.isLt
  rw [dif_pos hi]
  have hj : j = ⟨i, hi⟩ := Fin.ext h
  rw [hj]
  exact Function.update_same _ _ _

theorem setSlot_ne {tbl : Fin 256 → GpuVoxelMaterial} {i : Nat}
    {m : GpuVoxelMaterial} {j : Fin 256} (h : j.val ≠ i) :
    setSlot tbl i m j = tbl j := by
  unfold setSlot
  by_cases hi : i < 256
  · rw [dif_pos hi]
    exact Function.update_noteq (fun hc => h (congrArg Fin.val hc)) _ _
  · rw [dif_neg hi]

theorem writeMaterials_lt (ms : List VoxelMaterial) :
    ∀ (tbl : Fin 256 → GpuVoxelMaterial) (i : Nat) (j : Fin 256), j.val < i →
      writeMaterials tbl i ms j = tbl j := by
  induction ms with
  | nil => intro tbl i j _; rfl
  | cons m rest ih =>
    intro tbl i j hj
    rw [show writeMaterials tbl i (m :: rest) =
      writeMaterials (setSlot tbl i (materialToGpu m)) (i + 1) rest from rfl]
    rw [ih _ (i + 1) j (Nat.lt_succ_of_lt hj)]
    exact setSlot_ne (Nat.ne_of_lt hj)

theorem writeMaterials_ge (ms : List VoxelMaterial) :
    ∀ (tbl : Fin 256 → GpuVoxelMaterial) (i : Nat) (j : Fin 256),
      i + ms.length ≤ j.val → writeMaterials tbl i ms j = tbl j := by
  induction ms with
  | nil => intro tbl i j _; rfl
  | cons m rest ih =>
    intro tbl i j hj
    rw [show writeMaterials tbl i (m :: rest) =
      writeMaterials (setSlot tbl i (materialToGpu m)) (i + 1) rest from rfl]
    rw [ih _ (i + 1) j (by simp only [List.length_cons] at hj; omega)]
    exact setSlot_ne (by simp only [List.length_cons] at hj; omega)

theorem writeMaterials_at (ms : List VoxelMaterial) :
    ∀ (tbl : Fin 256 → GpuVoxelMaterial) (i k : Nat) (hk : k < ms.length)
      (j : Fin 256), j.val = i + k →
      writeMaterials tbl i ms j = materialToGpu (ms.get ⟨k, hk⟩) := by
  induction ms with
  | nil => intro tbl i k hk; simp at hk
  | cons m rest ih =>
    intro tbl i k hk j hj
    rw [show writeMaterials tbl i (m :: rest) =
      writeMaterials (setSlot tbl i (materialToGpu m)) (i + 1) rest from rfl]
    cases k with
    | zero =>
      rw [writeMaterials_lt rest _ (i + 1) j (by omega)]
      rw [setSlot_at (by omega : j.val = i)]
      rfl
    | succ k' =>
      rw [ih (setSlot tbl i (materialToGpu m)) (i + 1) k'
        (Nat.lt_of_succ_lt_succ hk) j (by omega)]
      rfl

/-- The table `extract_voxel_materials` builds when the registry changed:
each registered material copied field-for-field into its slot, every slot
beyond the registered range left at the opaque-white initializer. -/
theorem extract_voxel_materials_spec {reg : VoxelMaterialRegistry}
    (hch : reg.changed = true) :
    ∃ g, extract_voxel_materials reg = some g ∧
      (∀ (j : Fin 256) (hj : j.val < reg.mats.length),
        g.materials j = materialToGpu (reg.mats.get ⟨j.val, hj⟩)) ∧
      (∀ j : Fin 256, reg.mats.length ≤ j.val →
        g.materials j = extractInitMaterial) := by
  refine ⟨⟨writeMaterials (fun _ => extractInitMaterial) 0 reg.mats⟩, ?_, ?_, ?_⟩
  · unfold extract_voxel_materials
    rw [hch]
    rfl
  · intro j hj
    exact writeMaterials_at reg.mats _ 0 j.val hj j (by omega)
  · intro j hj
    exact writeMaterials_ge reg.mats _ 0 j (by omega)

/-! ## Remaining helper lemmas for the meshing claims -/

theorem alookup_of_mem_nodup {κ α : Type} [DecidableEq κ]
    {l : List (κ × α)} {k : κ} {v : α} (hnd : (akeys l).Nodup)
    (h : (k, v) ∈ l) : alookup l k = some v := by
  induction l with
  | nil => simp at h
  | cons hd tl ih =>
    obtain ⟨k', v'⟩ := hd
    rw [akeys_cons, List.nodup_cons] at hnd
    rcases List.mem_cons.mp h with h | h
    · injection h with h1 h2
      subst h1
      subst h2
      simp [alookup]
    · by_cases hk : k' = k
      · subst hk
        exact absurd (List.mem_map_of_mem (·.1) h) hnd.1
      · simp only [alookup, if_neg hk]
        exact ih hnd.2 h

/-- In a remove-only buffer containing a removal of `e`, the flush leaves
`e` without a binding. -/
theorem applyTaskCmds_removes_lookup_none {l : List (Entity × ChunkMeshingTask)}
    {cmds : List Command} {e : Entity}
    (hrem : ∀ c ∈ cmds, ∃ e', c = Command.removeTask e')
    (hnd : (akeys l).Nodup)
    (hin : Command.removeTask e ∈ cmds) :
    alookup (applyTaskCmds l cmds) e = none := by
  induction cmds generalizing l with
  | nil => simp at hin
  | cons c rest ih =>
    rcases hrem c (List.mem_cons_self _ _) with ⟨e', rfl⟩
    rw [show applyTaskCmds l (Command.removeTask e' :: rest) =
      applyTaskCmds (aerase l e') rest from rfl]
    by_cases hr : Command.removeTask e ∈ rest
    · exact ih (fun c hc => hrem c (List.mem_cons_of_mem _ hc))
        (nodup_akeys_aerase hnd) hr
    · have he' : e' = e := by
        rcases List.mem_cons.mp hin with h | h
        · injection h with h
          exact h.symm
        · exact absurd h hr
      subst he'
      rw [applyTaskCmds_removes_lookup_frame
        (fun c hc => hrem c (List.mem_cons_of_mem _ hc)) hr]
      exact alookup_aerase_self hnd

theorem countP_eq_one_of_nodup {α : Type} {l : List α} {p : α → Bool} {k : α}
    (hnd : l.Nodup) (hk : k ∈ l) (hpk : p k = true)
    (huni : ∀ k' ∈ l, p k' = true → k' = k) : l.countP p = 1 := by
  induction l with
  | nil => simp at hk
  | cons a tl ih =>
    rw [List.nodup_cons] at hnd
    rcases List.mem_cons.mp hk with hk | hk
    · subst hk
      rw [List.countP_cons, if_pos hpk]
      have hz : tl.countP p = 0 := by
        rw [List.countP_eq_zero]
        intro a' ha' hpa'
        exact hnd.1 ((huni a' (List.mem_cons_of_mem _ ha') hpa') ▸ ha')
      rw [hz]
    · have hpa : p a = false := by
        cases hpa : p a with
        | false => rfl
        | true => exact absurd ((huni a (List.mem_cons_self _ _) hpa) ▸ hk) hnd.1
      rw [List.countP_cons, hpa]
      simp only [Bool.false_eq_true, if_false, Nat.add_zero]
      exact ih hnd.2 hk fun k' hk' hpk' =>
        huni k' (List.mem_cons_of_mem _ hk') hpk'

theorem queueSpawnList_countP (w : World) (e : Entity) :
    (queueSpawnList w).countP (fun q => q.2 == e) =
      w.dirty.countP (fun key =>
        match alookup w.chunkEntities key, alookup w.chunkMap key with
        | some e', some _ => e' == e
        | _, _ => false) := by
  rw [queueSpawnList_eq]
  generalize w.dirty = l
  induction l with
  | nil => rfl
  | cons key tl ih =>
    rw [List.filterMap_cons, List.countP_cons]
    cases hce : alookup w.chunkEntities key with
    | none =>
      rw [ih]
      rfl
    | some e' =>
      cases hcm : alookup w.chunkMap key with
      | none =>
        rw [ih]
        rfl
      | some b =>
        rw [List.countP_cons, ih]

theorem queueSpawnList_length_eq (w : World) :
    (queueSpawnList w).length = w.dirty.countP (fun key =>
      match alookup w.chunkEntities key, alookup w.chunkMap key with
      | some _, some _ => true
      | _, _ => false) := by
  rw [queueSpawnList_eq]
  generalize w.dirty = l
  induction l with
  | nil => rfl
  | cons key tl ih =>
    rw [List.filterMap_cons, List.countP_cons]
    cases hce : alookup w.chunkEntities key with
    | none =>
      rw [ih]
      rfl
    | some e' =>
      cases hcm : alookup w.chunkMap key with
      | none =>
        rw [ih]
        rfl
      | some b =>
        rw [List.length_cons, ih]
        rfl

theorem alookup_singleton_eq {κ α : Type} [DecidableEq κ] {a k : κ} {v e : α}
    (h : alookup [(a, v)] k = some e) : a = k ∧ e = v := by
  by_cases ha : a = k
  · refine ⟨ha, ?_⟩
    simp only [alookup, if_pos ha, Option.some.injEq] at h
    exact h.symm
  · simp [alookup, ha] at h

/-! ## Claim theorems -/

/-- C4: The meshing computation run inside a spawned task is deterministic:
for every fixed voxel-grid contents and chunk shape the task body produces
the same output mesh regardless of the worker's incoming scratch-buffer
state, and every partition of a workload across workers of any pool size
yields, worker by worker, exactly the per-buffer meshes — prior tasks run on
the same worker's reused scratch buffers do not influence the output. -/
theorem C4_meshing_deterministic
    (workers : List (MeshBuffers × List ChunkBuffer)) :
    (∀ (s1 s2 : MeshBuffers) (b : ChunkBuffer),
      (taskBody s1 b).1 = (taskBody s2 b).1) ∧
    workers.map (fun p => (runWorker p.1 p.2).1) =
      workers.map (fun p => p.2.map meshOf) := by
  constructor
  · intro s1 s2 b
    rfl
  · have haux : ∀ (s : MeshBuffers) (bs : List ChunkBuffer),
        (runWorker s bs).1 = bs.map meshOf := by
      intro s bs
      induction bs generalizing s with
      | nil => rfl
      | cons b rest ih =>
        rw [show (runWorker s (b :: rest)).1 =
          (taskBody s b).1 :: (runWorker (taskBody s b).2 rest).1 from rfl]
        rw [ih]
        rfl
    induction workers with
    | nil => rfl
    | cons p rest ih =>
      rw [List.map_cons, List.map_cons, haux p.1 p.2, ih]

/-- C5 counterexample: the claim asserts that slot 0 of the extracted table
always holds the reserved opaque-white default record. The extraction loop
copies registry material 0 into slot 0, so a registry whose first material
is not that default (here: red base color, flags 1) yields a slot 0 that
differs from the default record — the claim's slot 0 clause fails while the
copy clause succeeds. -/
theorem C5_counterexample :
    (extract_voxel_materials redFirstRegistry).map
        (fun g => g.materials (0 : Fin 256)) =
      some (materialToGpu redMaterial) ∧
    materialToGpu redMaterial ≠ extractInitMaterial := by
  constructor
  · rfl
  · decide

/-- C5 (amended): for a registry with at most 256 materials whose change
signal fired, `extract_voxel_materials` produces the 256-slot table in
which each registered material's record is copied field-for-field into its
slot — slot 0 therefore holds the first registered material's record, the
reserved opaque-white default exactly when that is what the registry
registers first — and every slot beyond the registered range equals the
opaque-white default record rather than a zero-initialized one. -/
theorem C5_extract_voxel_materials (reg : VoxelMaterialRegistry)
    (hch : reg.changed = true) (_hlen : reg.mats.length ≤ 256) :
    ∃ g, extract_voxel_materials reg = some g ∧
      (∀ (j : Fin 256) (hj : j.val < reg.mats.length),
        g.materials j = materialToGpu (reg.mats.get ⟨j.val, hj⟩)) ∧
      (∀ j : Fin 256, reg.mats.length ≤ j.val →
        g.materials j = extractInitMaterial) :=
  extract_voxel_materials_spec hch

/-- C5 witness: the spec's two-material scenario — registry slot 0 the
white default, slot 1 the red material — satisfies the amended theorem's
hypotheses. -/
theorem C5_witness :
    twoSlotRegistry.changed = true ∧ twoSlotRegistry.mats.length ≤ 256 ∧
    (∃ g, extract_voxel_materials twoSlotRegistry = some g ∧
      (∀ (j : Fin 256) (hj : j.val < twoSlotRegistry.mats.length),
        g.materials j = materialToGpu (twoSlotRegistry.mats.get ⟨j.val, hj⟩)) ∧
      (∀ j : Fin 256, twoSlotRegistry.mats.length ≤ j.val →
        g.materials j = extractInitMaterial)) :=
  ⟨rfl, by decide, C5_extract_voxel_materials twoSlotRegistry rfl (by decide)⟩

/-- C6: GPU uploads are change-gated and independent. A frame whose
material registry and render-distance setting are both unchanged performs
no buffer write at all (its only event is the unconditional bind-group
rebuild); and within the upload phase, the materials write happens exactly
when the materials changed and the render-distance write exactly when the
setting changed — a change to one never triggers the other's upload. -/
theorem C6_upload_change_gating (reg : VoxelMaterialRegistry)
    (radius : ChunkLoadRadius) (s s' : RenderWorldState) (ev : List RenderEvent)
    (hreg : reg.changed = false) (hrad : radius.changed = false)
    (hframe : renderAppFrame reg radius s = some (s', ev)) :
    ev = [RenderEvent.rebuiltBindGroup] ∧
    (∀ (mats : GpuTerrainMaterials) (mch : Bool) (dist : GpuTerrainRenderSettings)
        (dch : Bool) (meta : TerrainUniforms),
      (upload_voxel_materials mats mch meta).2 ++
        (upload_render_distance_uniform dist dch
          (upload_voxel_materials mats mch meta).1).2 =
      (if mch then [RenderEvent.wroteMaterialsBuffer] else []) ++
        (if dch then [RenderEvent.wroteRenderDistanceBuffer] else [])) := by
  constructor
  · rcases renderAppFrame_events hframe with ⟨hev, _⟩
    rw [hev, hreg, hrad]
    rfl
  · intro mats mch dist dch meta
    cases mch <;> cases dch <;> rfl

/-- C6 witness: a steady frame — both buffers already uploaded, nothing
changed — writes neither buffer. -/
theorem C6_witness :
    (⟨[], false⟩ : VoxelMaterialRegistry).changed = false ∧
    (⟨2, false⟩ : ChunkLoadRadius).changed = false ∧
    renderAppFrame ⟨[], false⟩ ⟨2, false⟩ steadyRenderState =
      some (steadyRenderStateAfter, [RenderEvent.rebuiltBindGroup]) ∧
    ([RenderEvent.rebuiltBindGroup] = [RenderEvent.rebuiltBindGroup] ∧
      (∀ (mats : GpuTerrainMaterials) (mch : Bool)
          (dist : GpuTerrainRenderSettings) (dch : Bool) (meta : TerrainUniforms),
        (upload_voxel_materials mats mch meta).2 ++
          (upload_render_distance_uniform dist dch
            (upload_voxel_materials mats mch meta).1).2 =
        (if mch then [RenderEvent.wroteMaterialsBuffer] else []) ++
          (if dch then [RenderEvent.wroteRenderDistanceBuffer] else []))) :=
  ⟨rfl, rfl, rfl,
    C6_upload_change_gating ⟨[], false⟩ ⟨2, false⟩ steadyRenderState
      steadyRenderStateAfter [RenderEvent.rebuiltBindGroup] rfl rfl rfl⟩

/-- C7 counterexample: the claim asserts the binding-object rebuild happens
after extraction and before the byte uploads of the frame. In Bevy 0.8 the
`Prepare` stage (where this plugin schedules both upload systems) runs
before the `Queue` stage (where it schedules `prepare_terrain_uniforms`),
so on a first frame with everything changed the log shows both buffer
writes strictly before the rebuild — indeed the rebuild's `unwrap` of the
freshly written buffers only succeeds because the uploads ran first. -/
theorem C7_counterexample :
    (renderAppFrame ⟨[], true⟩ ⟨2, true⟩ initialRenderState).map
        (fun p => p.2) =
      some [RenderEvent.extractedMaterials, RenderEvent.extractedRenderDistance,
        RenderEvent.wroteMaterialsBuffer, RenderEvent.wroteRenderDistanceBuffer,
        RenderEvent.rebuiltBindGroup] ∧
    List.indexOf RenderEvent.wroteMaterialsBuffer
        [RenderEvent.extractedMaterials, RenderEvent.extractedRenderDistance,
          RenderEvent.wroteMaterialsBuffer, RenderEvent.wroteRenderDistanceBuffer,
          RenderEvent.rebuiltBindGroup] <
      List.indexOf RenderEvent.rebuiltBindGroup
        [RenderEvent.extractedMaterials, RenderEvent.extractedRenderDistance,
          RenderEvent.wroteMaterialsBuffer, RenderEvent.wroteRenderDistanceBuffer,
          RenderEvent.rebuiltBindGroup] := by
  constructor
  · rfl
  · decide

/-- C7 (amended): every frame the uniform pipeline executes its phases in
the fixed order Extract, then the change-gated byte uploads (scheduled in
`RenderStage::Prepare`), then the binding-object rebuild (scheduled in
`RenderStage::Queue`): the rebuild happens on every pass, after extraction
and after — not before — the byte uploads of that frame, as the last action
of the frame. -/
theorem C7_render_stage_order (reg : VoxelMaterialRegistry)
    (radius : ChunkLoadRadius) (s s' : RenderWorldState) (ev : List RenderEvent)
    (hframe : renderAppFrame reg radius s = some (s', ev)) :
    ev = (if reg.changed then [RenderEvent.extractedMaterials] else []) ++
      (if radius.changed then [RenderEvent.extractedRenderDistance] else []) ++
      (if reg.changed then [RenderEvent.wroteMaterialsBuffer] else []) ++
      (if radius.changed then [RenderEvent.wroteRenderDistanceBuffer] else []) ++
      [RenderEvent.rebuiltBindGroup] ∧
    ev.getLast? = some RenderEvent.rebuiltBindGroup := by
  rcases renderAppFrame_events hframe with ⟨hev, _⟩
  refine ⟨hev, ?_⟩
  rw [hev]
  exact List.getLast?_concat _

/-- C7 witness: the first full frame exhibits the amended order. -/
theorem C7_witness :
    renderAppFrame ⟨[], true⟩ ⟨2, true⟩ initialRenderState =
      some (firstFrameRenderState,
        [RenderEvent.extractedMaterials, RenderEvent.extractedRenderDistance,
          RenderEvent.wroteMaterialsBuffer, RenderEvent.wroteRenderDistanceBuffer,
          RenderEvent.rebuiltBindGroup]) ∧
    ([RenderEvent.extractedMaterials, RenderEvent.extractedRenderDistance,
        RenderEvent.wroteMaterialsBuffer, RenderEvent.wroteRenderDistanceBuffer,
        RenderEvent.rebuiltBindGroup] =
      (if (⟨[], true⟩ : VoxelMaterialRegistry).changed
        then [RenderEvent.extractedMaterials] else []) ++
        (if (⟨2, true⟩ : ChunkLoadRadius).changed
          then [RenderEvent.extractedRenderDistance] else []) ++
        (if (⟨[], true⟩ : VoxelMaterialRegistry).changed
          then [RenderEvent.wroteMaterialsBuffer] else []) ++
        (if (⟨2, true⟩ : ChunkLoadRadius).changed
          then [RenderEvent.wroteRenderDistanceBuffer] else []) ++
        [RenderEvent.rebuiltBindGroup] ∧
      ([RenderEvent.extractedMaterials, RenderEvent.extractedRenderDistance,
          RenderEvent.wroteMaterialsBuffer, RenderEvent.wroteRenderDistanceBuffer,
          RenderEvent.rebuiltBindGroup] : List RenderEvent).getLast? =
        some RenderEvent.rebuiltBindGroup) := by
  refine ⟨rfl, ?_⟩
  exact C7_render_stage_order ⟨[], true⟩ ⟨2, true⟩ initialRenderState _ _ rfl

/-- C8: issuing `SetTerrainUniformsBindGroup` before the binding object has
been built is fatal — the `unwrap` of the absent bind group panics; under
the precondition that at least one prepare pass has completed and stored a
binding object, the unwrap cannot fail and the command binds the group at
the fixed bind-group slot `I` and returns `Success`. -/
theorem C8_bind_group_precondition (I : Nat) (u u' : TerrainUniforms)
    (pass : TrackedRenderPass)
    (hprep : prepare_terrain_uniforms u = some u') :
    (∀ v : TerrainUniforms, v.bind_group = none →
      SetTerrainUniformsBindGroup.render I v pass = none) ∧
    ∃ bg, u'.bind_group = some bg ∧
      SetTerrainUniformsBindGroup.render I u' pass =
        some ({ pass with boundGroups := ainsert pass.boundGroups I bg },
          RenderCommandResult.Success) := by
  constructor
  · intro v hv
    unfold SetTerrainUniformsBindGroup.render
    rw [hv]
  · have hbg := prepare_terrain_uniforms_bind_group hprep
    cases hbgv : u'.bind_group with
    | none => rw [hbgv] at hbg; exact absurd hbg (by simp)
    | some bg =>
      refine ⟨bg, rfl, ?_⟩
      unfold SetTerrainUniformsBindGroup.render
      rw [hbgv]

/-- C8 witness: after a prepare pass over uploaded buffers, binding at
slot 2 succeeds. -/
theorem C8_witness :
    prepare_terrain_uniforms allocatedUniforms = some allocatedUniformsBound ∧
    ((∀ v : TerrainUniforms, v.bind_group = none →
        SetTerrainUniformsBindGroup.render 2 v ⟨[]⟩ = none) ∧
      ∃ bg, allocatedUniformsBound.bind_group = some bg ∧
        SetTerrainUniformsBindGroup.render 2 allocatedUniformsBound ⟨[]⟩ =
          some ({ boundGroups := ainsert [] 2 bg },
            RenderCommandResult.Success)) :=
  ⟨rfl, C8_bind_group_precondition 2 allocatedUniforms allocatedUniformsBound ⟨[]⟩ rfl⟩

/-- C1 counterexample: the claim asserts that when `queue_mesh_tasks`
schedules a chunk that already carries a `ChunkMeshingTask`, the new task's
insertion replaces the tracking of the old task and the superseded task's
result is never installed into the scene. But the insertion is a buffered
`Commands` effect applied only at the end of the stage, while
`process_mesh_tasks` runs after `queue_mesh_tasks` inside the same stage
and still sees the old task: on a frame where the old task's poll observes
completion, the old (superseded) task's result IS installed — and the
deferred marker removal then deletes the newly inserted task. Here the old
task has id 5, the replacement id 6, the poll completes exactly id 5: after
the pass the install log records the id-5 result and no task at all remains
attached. -/
theorem C1_counterexample :
    (chunkMeshingStage (fun i => i == 5) sampleWorld).map
        (fun w' => w'.installed) = some [(0, 5)] ∧
    (chunkMeshingStage (fun i => i == 5) sampleWorld).map
        (fun w' => w'.taskC) = some [] := ⟨rfl, rfl⟩

/-- C1 (amended): component storage keeps at most one `ChunkMeshingTask`
per entity at every frame boundary. When `queue_mesh_tasks` schedules a
chunk whose entity already carries task `t1` and the frame's single poll
does not observe `t1` complete, the buffered insertion replaces the old
task at the stage's command flush — afterwards the entity tracks a fresh
task with a different id — and `t1`'s result is never installed into the
scene, in this pass or along any reachable future. (If the poll does
observe `t1` complete in the replacement frame itself, `t1`'s result is
still installed and the deferred marker removal deletes the replacement —
see the counterexample.) -/
theorem C1_task_replacement (w w' : World) (poll : Nat → Bool) (e : Entity)
    (t1 : ChunkMeshingTask) (key : IVec3) (b : ChunkBuffer)
    (hnd : (akeys w.taskC).Nodup)
    (hatt : alookup w.taskC e = some t1)
    (huniq : ∀ p ∈ w.taskC, p.2.id = t1.id → p.1 = e)
    (hfresh : t1.id < w.nextTaskId)
    (hkey : key ∈ w.dirty) (hce : alookup w.chunkEntities key = some e)
    (hcm : alookup w.chunkMap key = some b)
    (hpoll : poll t1.id = false)
    (hstage : chunkMeshingStage poll w = some w') :
    (akeys w'.taskC).Nodup ∧
    (∃ t2, alookup w'.taskC e = some t2 ∧ t2.id ≠ t1.id) ∧
    (∀ w'', Reach w' w'' → (akeys w''.taskC).Nodup ∧
      ∀ p ∈ w''.installed, p ∈ w.installed ∨ p.2 ≠ t1.id) := by
  have hstep : WStep w w' := WStep.mesh poll w w' hstage
  have hnd' := wstep_taskC_nodup hnd hstep
  rcases replacement_retires hnd hatt huniq hfresh hkey hce hcm hpoll hstage with
    ⟨hret, hbind, hinst0⟩
  refine ⟨hnd', hbind, ?_⟩
  intro w'' hre
  rcases retired_reach hret hre with ⟨_, hinst⟩
  refine ⟨reach_taskC_nodup hnd' hre, ?_⟩
  intro p hp
  rcases hinst p hp with hp' | hne
  · exact hinst0 p hp'
  · exact Or.inr hne

/-- C1 witness: on the sample world whose poll observes nothing complete,
the pass replaces the in-flight id-5 task by the fresh id-6 task. -/
theorem C1_witness :
    ((akeys sampleWorld.taskC).Nodup ∧
      alookup sampleWorld.taskC 0 =
        some ⟨5, Mesh.new PrimitiveTopology.TriangleList⟩ ∧
      (∀ p ∈ sampleWorld.taskC, p.2.id = 5 → p.1 = 0) ∧
      5 < sampleWorld.nextTaskId ∧
      (⟨0, 0, 0⟩ : IVec3) ∈ sampleWorld.dirty ∧
      alookup sampleWorld.chunkEntities ⟨0, 0, 0⟩ = some 0 ∧
      alookup sampleWorld.chunkMap ⟨0, 0, 0⟩ = some emptyChunkBuffer ∧
      (fun _ : Nat => false) 5 = false ∧
      chunkMeshingStage (fun _ => false) sampleWorld = some sampleWorldReplaced) ∧
    ((akeys sampleWorldReplaced.taskC).Nodup ∧
      (∃ t2, alookup sampleWorldReplaced.taskC 0 = some t2 ∧ t2.id ≠ 5) ∧
      (∀ w'', Reach sampleWorldReplaced w'' → (akeys w''.taskC).Nodup ∧
        ∀ p ∈ w''.installed, p ∈ sampleWorld.installed ∨ p.2 ≠ 5)) :=
  ⟨⟨by decide, rfl, by decide, by decide, by decide, rfl, rfl, rfl, rfl⟩,
    C1_task_replacement sampleWorld sampleWorldReplaced (fun _ => false) 0
      ⟨5, Mesh.new PrimitiveTopology.TriangleList⟩ ⟨0, 0, 0⟩ emptyChunkBuffer
      (by decide) rfl (by decide) (by decide) (by decide) rfl rfl rfl rfl⟩

/-- C2: one invocation of `process_mesh_tasks` (with its own command buffer
applied) on an entity carrying a `Chunk`, a mesh handle and a
`ChunkMeshingTask` either (a) — when the single poll observes the task
complete — overwrites the mesh asset behind the handle with the produced
triangle-list mesh, sets the entity's visibility to true and removes the
`ChunkMeshingTask` marker, or (b) — when the poll observes it incomplete —
leaves the entity's mesh asset, visibility and marker entirely unchanged;
the poll is a single non-blocking check either way. -/
theorem C2_process_mesh_tasks (w : World) (poll : Nat → Bool) (e : Entity)
    (hh : Nat) (t : ChunkMeshingTask) (v : Bool) (m0 : Mesh)
    (hend : w.entities.Nodup)
    (htnd : (akeys w.taskC).Nodup)
    (he : e ∈ w.entities)
    (hhandle : alookup w.handleC e = some hh)
    (htask : alookup w.taskC e = some t)
    (hvis : alookup w.visibleC e = some v)
    (hchunk : (alookup w.chunkC e).isSome = true)
    (hm0 : alookup w.meshes hh = some m0)
    (hpres : ∀ p ∈ processQuery w, (alookup w.meshes p.2.1).isSome = true)
    (hhu : ∀ p ∈ processQuery w, p.2.1 = hh → p.1 = e) :
    ∃ w', process_and_flush poll w = some w' ∧
      (poll t.id = true →
        alookup w'.meshes hh = some t.result ∧
        alookup w'.visibleC e = some true ∧
        alookup w'.taskC e = none) ∧
      (poll t.id = false →
        alookup w'.meshes hh = some m0 ∧
        alookup w'.visibleC e = some v ∧
        alookup w'.taskC e = some t) := by
  have hq : (e, hh, t) ∈ processQuery w :=
    processQuery_mem_intro he hhandle htask (by rw [hvis]; rfl) hchunk
  rcases processLoop_total poll (processQuery w) w [] hpres with ⟨⟨w2, cmds⟩, hrun⟩
  have heff := processLoop_effect poll (processQuery w) w [] hq
    (processQuery_fst_nodup hend) hhu w2 cmds hrun
  have hfr := processLoop_frame poll (processQuery w) w [] w2 cmds hrun
  have hremoves : ∀ c ∈ cmds, ∃ e', c = Command.removeTask e' := by
    intro c hc
    rcases (processLoop_cmds poll (processQuery w) w [] w2 cmds hrun).2 c hc with
      hin | ⟨en, _, hce, _⟩
    · simp at hin
    · exact ⟨en.1, hce⟩
  refine ⟨applyCommands w2 cmds, ?_, ?_, ?_⟩
  · unfold process_and_flush process_mesh_tasks
    rw [hrun]
    rfl
  · intro hp
    rcases heff.1 hp with ⟨hme, hvi, hrm, _⟩
    rw [applyCommands_eq]
    refine ⟨hme, hvi, ?_⟩
    have hnd2 : (akeys w2.taskC).Nodup := by
      rw [hfr.2.2.2.1]
      exact htnd
    exact applyTaskCmds_removes_lookup_none hremoves hnd2 hrm
  · intro hp
    rcases heff.2 hp with ⟨hme, hvi⟩
    rw [applyCommands_eq]
    have hnorem : Command.removeTask e ∉ cmds := by
      intro hc
      rcases (processLoop_cmds poll (processQuery w) w [] w2 cmds hrun).2 _ hc with
        hin | ⟨en, hen, hce, hpo⟩
      · simp at hin
      · injection hce with hen1
        rcases processQuery_mem (by
          rw [show en = (en.1, en.2.1, en.2.2) from rfl] at hen
          exact hen) with ⟨_, _, htsk⟩
        rw [← hen1, htask] at htsk
        injection htsk with htsk
        rw [← htsk, hp] at hpo
        exact Bool.false_ne_true hpo
    refine ⟨by rw [hme, hm0], by rw [hvi, hvis], ?_⟩
    rw [applyTaskCmds_removes_lookup_frame hremoves hnorem, hfr.2.2.2.1, htask]

/-- C2 witness: on the sample world with an always-complete poll, the
invocation installs the result, flips visibility and drops the marker. -/
theorem C2_witness :
    (sampleWorld.entities.Nodup ∧ (akeys sampleWorld.taskC).Nodup ∧
      0 ∈ sampleWorld.entities ∧
      alookup sampleWorld.handleC 0 = some 0 ∧
      alookup sampleWorld.taskC 0 =
        some ⟨5, Mesh.new PrimitiveTopology.TriangleList⟩ ∧
      alookup sampleWorld.visibleC 0 = some false ∧
      (alookup sampleWorld.chunkC 0).isSome = true ∧
      alookup sampleWorld.meshes 0 = some (Mesh.new PrimitiveTopology.TriangleList) ∧
      (∀ p ∈ processQuery sampleWorld,
        (alookup sampleWorld.meshes p.2.1).isSome = true) ∧
      (∀ p ∈ processQuery sampleWorld, p.2.1 = 0 → p.1 = 0)) ∧
    (∃ w', process_and_flush (fun _ => true) sampleWorld = some w' ∧
      ((fun _ : Nat => true) 5 = true →
        alookup w'.meshes 0 = some (Mesh.new PrimitiveTopology.TriangleList) ∧
        alookup w'.visibleC 0 = some true ∧
        alookup w'.taskC 0 = none) ∧
      ((fun _ : Nat => true) 5 = false →
        alookup w'.meshes 0 = some (Mesh.new PrimitiveTopology.TriangleList) ∧
        alookup w'.visibleC 0 = some false ∧
        alookup w'.taskC 0 =
          some ⟨5, Mesh.new PrimitiveTopology.TriangleList⟩)) :=
  ⟨⟨by decide, by decide, by decide, rfl, rfl, rfl, rfl, rfl, by decide, by decide⟩,
    C2_process_mesh_tasks sampleWorld (fun _ => true) 0 0
      ⟨5, Mesh.new PrimitiveTopology.TriangleList⟩ false
      (Mesh.new PrimitiveTopology.TriangleList)
      (by decide) (by decide) (by decide) rfl rfl rfl rfl rfl
      (by decide) (by decide)⟩

/-- C3: for every key in the dirty snapshot, `queue_mesh_tasks` raises no
error and buffers nothing but marker insertions; the number of spawned
tasks equals the number of dirty keys for which both the chunk-key-to-entity
and the chunk-key-to-buffer lookup resolve; a key whose entity resolves but
whose buffer does not gets no task and no marker; and a key with both
lookups resolving spawns exactly one task for its entity. (The entity
lookup is assumed injective — distinct chunk keys map to distinct scene
entities — and the snapshot duplicate-free, as the Dirty Set contract
requires.) -/
theorem C3_skip_on_race (w : World)
    (hnd : w.dirty.Nodup)
    (hinj : ∀ k1 k2 e, alookup w.chunkEntities k1 = some e →
      alookup w.chunkEntities k2 = some e → k1 = k2) :
    (∀ c ∈ (queue_mesh_tasks w).2, ∃ e t, c = Command.insertTask e t) ∧
    ((queue_mesh_tasks w).1 =
      { w with nextTaskId := w.nextTaskId + (queueSpawnList w).length }) ∧
    ((queueSpawnList w).length = w.dirty.countP (fun key =>
      match alookup w.chunkEntities key, alookup w.chunkMap key with
      | some _, some _ => true
      | _, _ => false)) ∧
    (∀ key ∈ w.dirty, ∀ e, alookup w.chunkEntities key = some e →
      alookup w.chunkMap key = none →
      ∀ t, Command.insertTask e t ∉ (queue_mesh_tasks w).2) ∧
    (∀ key ∈ w.dirty, ∀ e b, alookup w.chunkEntities key = some e →
      alookup w.chunkMap key = some b →
      (queue_mesh_tasks w).2.countP (fun c =>
        match c with
        | Command.insertTask e' _ => e' == e
        | _ => false) = 1) := by
  refine ⟨?_, rfl, queueSpawnList_length_eq w, ?_, ?_⟩
  · intro c hc
    rcases queue_cmds_inserts w c hc with ⟨e, t, hc', _⟩
    exact ⟨e, t, hc'⟩
  · intro key hkey e hce hcm t hc
    rcases queue_cmds_src hc with ⟨key', hkey', hce', b, hcm'⟩
    rw [hinj key' key e hce' hce] at hcm'
    rw [hcm] at hcm'
    exact Option.noConfusion hcm'
  · intro key hkey e b hce hcm
    have h1 : (queue_mesh_tasks w).2.countP (fun c =>
        match c with
        | Command.insertTask e' _ => e' == e
        | _ => false) =
        (assignTasks w.nextTaskId (queueSpawnList w)).countP
          (fun p => p.1 == e) := by
      rw [show (queue_mesh_tasks w).2 =
        (assignTasks w.nextTaskId (queueSpawnList w)).map
          (fun p => Command.insertTask p.1 p.2) from rfl]
      rw [List.countP_map]
      rfl
    rw [h1, assignTasks_countP e w.nextTaskId (queueSpawnList w),
      queueSpawnList_countP w e]
    refine countP_eq_one_of_nodup hnd hkey ?_ ?_
    · show (match alookup w.chunkEntities key, alookup w.chunkMap key with
        | some e', some _ => e' == e
        | _, _ => false) = true
      rw [hce, hcm]
      exact beq_self_eq_true e
    · intro k' hk' hp
      cases hce' : alookup w.chunkEntities k' with
      | none =>
        rw [hce'] at hp
        exact absurd hp (by simp)
      | some e'' =>
        cases hcm' : alookup w.chunkMap k' with
        | none =>
          rw [hce', hcm'] at hp
          exact absurd hp (by simp)
        | some b'' =>
          rw [hce', hcm'] at hp
          have he'' : e'' = e := eq_of_beq hp
          rw [he''] at hce'
          exact hinj k' key e hce' hce

/-- C3 witness: on the race world — three dirty keys, only one resolving to
both a live entity and a buffer — the hypotheses hold. -/
theorem C3_witness :
    (raceWorld.dirty.Nodup ∧
      (∀ k1 k2 e, alookup raceWorld.chunkEntities k1 = some e →
        alookup raceWorld.chunkEntities k2 = some e → k1 = k2)) ∧
    ((∀ c ∈ (queue_mesh_tasks raceWorld).2, ∃ e t, c = Command.insertTask e t) ∧
      ((queue_mesh_tasks raceWorld).1 =
        { raceWorld with
          nextTaskId := raceWorld.nextTaskId + (queueSpawnList raceWorld).length }) ∧
      ((queueSpawnList raceWorld).length = raceWorld.dirty.countP (fun key =>
        match alookup raceWorld.chunkEntities key, alookup raceWorld.chunkMap key with
        | some _, some _ => true
        | _, _ => false)) ∧
      (∀ key ∈ raceWorld.dirty, ∀ e, alookup raceWorld.chunkEntities key = some e →
        alookup raceWorld.chunkMap key = none →
        ∀ t, Command.insertTask e t ∉ (queue_mesh_tasks raceWorld).2) ∧
      (∀ key ∈ raceWorld.dirty, ∀ e b,
        alookup raceWorld.chunkEntities key = some e →
        alookup raceWorld.chunkMap key = some b →
        (queue_mesh_tasks raceWorld).2.countP (fun c =>
          match c with
          | Command.insertTask e' _ => e' == e
          | _ => false) = 1)) := by
  have hinj : ∀ k1 k2 e, alookup raceWorld.chunkEntities k1 = some e →
      alookup raceWorld.chunkEntities k2 = some e → k1 = k2 := by
    intro k1 k2 e h1 h2
    have g1 := (alookup_singleton_eq h1).1
    have g2 := (alookup_singleton_eq h2).1
    rw [← g1, ← g2]
  exact ⟨⟨by decide, hinj⟩, C3_skip_on_race raceWorld (by decide) hinj⟩

/-- C9: if the entity owning an in-flight meshing task is destroyed before
the task completes, subsequent `process_mesh_tasks` passes neither crash
nor mutate any state for that entity: the entity no longer matches the
integrator's query, its (now removed) components stay untouched, no
installation is logged for it, and the destroyed task's result is never
installed along any reachable future — it is simply discarded. -/
theorem C9_despawned_entity_safe (w : World) (e : Entity) (t : ChunkMeshingTask)
    (hnd : (akeys w.taskC).Nodup)
    (htask : alookup w.taskC e = some t)
    (hfresh : t.id < w.nextTaskId)
    (huniq : ∀ p ∈ w.taskC, p.2.id = t.id → p.1 = e) :
    (∀ p ∈ processQuery (despawnEntity w e), p.1 ≠ e) ∧
    (∀ (poll : Nat → Bool) (w2 : World) (cmds : List Command),
      process_mesh_tasks poll (despawnEntity w e) = some (w2, cmds) →
      alookup w2.visibleC e = alookup (despawnEntity w e).visibleC e ∧
      w2.taskC = (despawnEntity w e).taskC ∧
      ∀ p ∈ w2.installed, p ∈ w.installed ∨ p.1 ≠ e) ∧
    (∀ w'', Reach (despawnEntity w e) w'' →
      ∀ p ∈ w''.installed, p ∈ w.installed ∨ p.2 ≠ t.id) := by
  have hqne : ∀ p ∈ processQuery (despawnEntity w e), p.1 ≠ e := by
    intro p hp
    have hmem := processQuery_fst_mem hp
    rw [show (despawnEntity w e).entities = w.entities.filter (· ≠ e) from rfl]
      at hmem
    exact of_decide_eq_true (List.mem_filter.mp hmem).2
  have hnotin : e ∉ (processQuery (despawnEntity w e)).map (fun p => p.1) := by
    intro hc
    rcases List.mem_map.mp hc with ⟨p, hp, hpe⟩
    exact hqne p hp hpe
  refine ⟨hqne, ?_, ?_⟩
  · intro poll w2 cmds hrun
    have huntouched := processLoop_untouched poll
      (processQuery (despawnEntity w e)) (despawnEntity w e) [] w2 cmds hrun
    have hfr := processLoop_frame poll (processQuery (despawnEntity w e))
      (despawnEntity w e) [] w2 cmds hrun
    refine ⟨huntouched.1 e hnotin, hfr.2.2.2.1, ?_⟩
    intro p hp
    rcases (processLoop_installed poll (processQuery (despawnEntity w e))
        (despawnEntity w e) [] w2 cmds hrun).2 p hp with hin | ⟨en, hen, hpe, _⟩
    · exact Or.inl hin
    · refine Or.inr ?_
      rw [hpe]
      exact hqne en hen
  · have hret : Retired (despawnEntity w e) t.id := by
      constructor
      · rw [not_mem_attachedIds]
        intro p hp hpid
        obtain ⟨pe, pt⟩ := p
        have hp1 : pe = e := huniq (pe, pt) (mem_aerase hp) hpid
        subst hp1
        have hsome := alookup_of_mem_nodup (nodup_akeys_aerase hnd) hp
        rw [alookup_aerase_self hnd] at hsome
        exact Option.noConfusion hsome
      · exact hfresh
    intro w'' hre
    exact (retired_reach hret hre).2

/-- C9 witness: despawning the sample world's only entity retires its
in-flight id-5 task. -/
theorem C9_witness :
    ((akeys sampleWorld.taskC).Nodup ∧
      alookup sampleWorld.taskC 0 =
        some ⟨5, Mesh.new PrimitiveTopology.TriangleList⟩ ∧
      5 < sampleWorld.nextTaskId ∧
      (∀ p ∈ sampleWorld.taskC, p.2.id = 5 → p.1 = 0)) ∧
    ((∀ p ∈ processQuery (despawnEntity sampleWorld 0), p.1 ≠ 0) ∧
      (∀ (poll : Nat → Bool) (w2 : World) (cmds : List Command),
        process_mesh_tasks poll (despawnEntity sampleWorld 0) = some (w2, cmds) →
        alookup w2.visibleC 0 = alookup (despawnEntity sampleWorld 0).visibleC 0 ∧
        w2.taskC = (despawnEntity sampleWorld 0).taskC ∧
        ∀ p ∈ w2.installed, p ∈ sampleWorld.installed ∨ p.1 ≠ 0) ∧
      (∀ w'', Reach (despawnEntity sampleWorld 0) w'' →
        ∀ p ∈ w''.installed, p ∈ sampleWorld.installed ∨ p.2 ≠ 5)) :=
  ⟨⟨by decide, rfl, by decide, by decide⟩,
    C9_despawned_entity_safe sampleWorld 0
      ⟨5, Mesh.new PrimitiveTopology.TriangleList⟩
      (by decide) rfl (by decide) (by decide)⟩

/-- C10: every entity that newly gains a `Chunk` component is initialized
by `prepare_chunks` with visibility off, a freshly allocated (previously
unused) handle to an empty triangle-list mesh, a translation equal to the
chunk key's coordinates, and an axis-aligned bounding box from the origin
to `CHUNK_LENGTH` on each axis — so the chunk is not visible before its
first meshing result is integrated. -/
theorem C10_prepare_chunks_init (w : World) (added : List Entity) (e : Entity)
    (key : IVec3)
    (hadd : added.Nodup)
    (hae : e ∈ added) (he : e ∈ w.entities)
    (hkey : alookup w.chunkC e = some key)
    (hfr : ∀ k ∈ akeys w.meshes, k < w.nextHandle) :
    ∃ h, alookup (prepare_chunks w added).handleC e = some h ∧
      alookup (prepare_chunks w added).meshes h =
        some (Mesh.new PrimitiveTopology.TriangleList) ∧
      alookup w.meshes h = none ∧
      alookup (prepare_chunks w added).visibleC e = some false ∧
      alookup (prepare_chunks w added).transformC e = some key ∧
      alookup (prepare_chunks w added).aabbC e =
        some ⟨⟨0, 0, 0⟩,
          ⟨(CHUNK_LENGTH : Int), (CHUNK_LENGTH : Int), (CHUNK_LENGTH : Int)⟩⟩ := by
  have hq : (e, key) ∈ prepareQuery w added := prepareQuery_mem_intro hae he hkey
  have hqnd : ((prepareQuery w added).map (fun p => p.1)).Nodup :=
    (prepareQuery_fst_sublist w added).nodup hadd
  exact prepareLoop_effect (prepareQuery w added) w hq hqnd hfr

/-- C10 witness: preparing the sample world's entity 0, newly carrying its
chunk component, initializes it invisible with a fresh empty mesh. -/
theorem C10_witness :
    (([0] : List Entity).Nodup ∧ 0 ∈ ([0] : List Entity) ∧
      0 ∈ sampleWorld.entities ∧
      alookup sampleWorld.chunkC 0 = some ⟨0, 0, 0⟩ ∧
      (∀ k ∈ akeys sampleWorld.meshes, k < sampleWorld.nextHandle)) ∧
    (∃ h, alookup (prepare_chunks sampleWorld [0]).handleC 0 = some h ∧
      alookup (prepare_chunks sampleWorld [0]).meshes h =
        some (Mesh.new PrimitiveTopology.TriangleList) ∧
      alookup sampleWorld.meshes h = none ∧
      alookup (prepare_chunks sampleWorld [0]).visibleC 0 = some false ∧
      alookup (prepare_chunks sampleWorld [0]).transformC 0 = some ⟨0, 0, 0⟩ ∧
      alookup (prepare_chunks sampleWorld [0]).aabbC 0 =
        some ⟨⟨0, 0, 0⟩,
          ⟨(CHUNK_LENGTH : Int), (CHUNK_LENGTH : Int), (CHUNK_LENGTH : Int)⟩⟩) :=
  ⟨⟨by decide, by decide, by decide, rfl, by decide⟩,
    C10_prepare_chunks_init sampleWorld [0] 0 ⟨0, 0, 0⟩
      (by decide) (by decide) (by decide) rfl (by decide)⟩

end VxBevy
